import Mathlib

/-!
# 2D convolution runtime: `EigenConvImpl` and `MKLConvImpl`

A shallow embedding of `tensorflow/compiler/xla/service/cpu/runtime_conv2d_impl.h`.

* Buffers (`ScalarType*`) are functions `Nat → α` from element offset to scalar.
* Scalars are taken in exact arithmetic: `α` is any commutative ring.
* The `int64` shape / stride / padding / dilation arguments are natural numbers
  (every property below concerns non-negative values, and none depends on
  overflow); positions that can become negative (a tap position minus a
  padding) and the vendor's dimension vectors are computed in `Int`.
* The tensor-expression library and the vendor convolution engine that the two
  routines call are not part of the source file; they are modelled below, each in
  a definition that says so.
-/

namespace Conv2d

/-! ## Parameters shared by both routines -/

/-- The integer arguments of `EigenConvImpl` / `MKLConvImpl`, in source order. -/
structure ConvParams where
  input_batch : Nat
  input_rows : Nat
  input_cols : Nat
  input_channels : Nat
  kernel_rows : Nat
  kernel_cols : Nat
  kernel_channels : Nat
  kernel_filters : Nat
  output_rows : Nat
  output_cols : Nat
  row_stride : Nat
  col_stride : Nat
  padding_top : Nat
  padding_bottom : Nat
  padding_left : Nat
  padding_right : Nat
  lhs_row_dilation : Nat
  lhs_col_dilation : Nat
  rhs_row_dilation : Nat
  rhs_col_dilation : Nat
deriving DecidableEq

/-! ## Tensor expressions (model of the tensor library) -/

/-- Modelled from the spec: the tensor-expression objects of the Eigen Tensor
library (`TensorMap`, and the lazily evaluated expressions built from it) are not
under src/. An expression is its extents together with its coefficient function
on the row-major linear index (all tensors of the source are `Eigen::RowMajor`). -/
structure TensorExpr (α : Type) where
  dimensions : List Nat
  coeff : Nat → α

/-- Modelled from the spec: `Eigen::TensorMap` over a raw buffer, a non-owning
view with the given extents; coefficient `i` is buffer element `i`. -/
def TensorMap {α : Type} (data : Nat → α) (dims : List Nat) : TensorExpr α :=
  { dimensions := dims, coeff := data }

/-- Number of coefficients of an expression: the product of its extents. -/
def TensorExpr.size {α : Type} (t : TensorExpr α) : Nat := t.dimensions.prod

/-- Modelled from the spec: `reshape` of the tensor library, "reinterpreted,
without data movement": new extents, same coefficient per linear index. -/
def TensorExpr.reshape {α : Type} (t : TensorExpr α) (dims : List Nat) : TensorExpr α :=
  { dimensions := dims, coeff := t.coeff }

/-- Ceiling of `a / s` for `s > 0`, the exact value of the library's
`ceil(a / float(s))`. -/
def ceilDiv (a s : Int) : Int := (a + (s - 1)) / s

/-- Modelled from the spec: the member variables of the evaluator behind
`extract_image_patches` (Eigen `TensorImagePatchOp`, not under src/), for a
row-major rank-4 input. The library's "rows" are the input's second-to-last
axis and its "cols" the third-to-last: its native convention is
column-major-first. -/
structure ImagePatchEvaluator where
  inputDepth : Nat
  inputRows : Nat
  inputCols : Nat
  row_strides : Nat
  col_strides : Nat
  in_row_strides : Nat
  in_col_strides : Nat
  row_inflate_strides : Nat
  col_inflate_strides : Nat
  input_rows_eff : Int
  input_cols_eff : Int
  outputRows : Nat
  outputCols : Nat
  rowPaddingTop : Nat
  colPaddingLeft : Nat
  colStride : Nat
  patchStride : Nat
  otherStride : Nat
  rowInputStride : Nat
  colInputStride : Nat
  patchInputStride : Nat
  dimensions : List Nat
deriving DecidableEq

/-- Modelled from the spec: construction of the patch evaluator (Eigen
`TensorImagePatchOp`, explicit-padding overload; not under src/). The input is
conceptually inflated by the inflate strides and zero-padded; the number of
patches per axis is `ceil((eff_input + pad_lo + pad_hi - eff_patch + 1) / stride)`.
The result has extents (batch, patches, patch_cols, patch_rows, depth). -/
def ImagePatchEvaluator.make (input_dims : List Nat)
    (patch_rows patch_cols row_stride col_stride in_row_stride in_col_stride
      row_inflate_stride col_inflate_stride
      padding_top padding_bottom padding_left padding_right : Nat) : ImagePatchEvaluator :=
  let inputDepth := input_dims.getD 3 0
  let inputRows := input_dims.getD 2 0
  let inputCols := input_dims.getD 1 0
  let input_rows_eff : Int := ((inputRows : Int) - 1) * row_inflate_stride + 1
  let input_cols_eff : Int := ((inputCols : Int) - 1) * col_inflate_stride + 1
  let patch_rows_eff : Int := (patch_rows : Int) + ((patch_rows : Int) - 1) * ((in_row_stride : Int) - 1)
  let patch_cols_eff : Int := (patch_cols : Int) + ((patch_cols : Int) - 1) * ((in_col_stride : Int) - 1)
  let outputRows : Nat :=
    (ceilDiv (input_rows_eff + padding_top + padding_bottom - patch_rows_eff + 1) row_stride).toNat
  let outputCols : Nat :=
    (ceilDiv (input_cols_eff + padding_left + padding_right - patch_cols_eff + 1) col_stride).toNat
  let dimensions := [input_dims.getD 0 0, outputRows * outputCols, patch_cols, patch_rows, inputDepth]
  let colStride := patch_rows
  let patchStride := colStride * patch_cols * inputDepth
  let otherStride := patchStride * (outputRows * outputCols)
  { inputDepth := inputDepth, inputRows := inputRows, inputCols := inputCols,
    row_strides := row_stride, col_strides := col_stride,
    in_row_strides := in_row_stride, in_col_strides := in_col_stride,
    row_inflate_strides := row_inflate_stride, col_inflate_strides := col_inflate_stride,
    input_rows_eff := input_rows_eff, input_cols_eff := input_cols_eff,
    outputRows := outputRows, outputCols := outputCols,
    rowPaddingTop := padding_top, colPaddingLeft := padding_left,
    colStride := colStride, patchStride := patchStride, otherStride := otherStride,
    rowInputStride := inputDepth, colInputStride := inputDepth * inputRows,
    patchInputStride := inputDepth * inputRows * inputCols,
    dimensions := dimensions }

/-- Position along one axis of the un-inflated input for a position of the
inflated input: the position itself without inflation, else its quotient. -/
def origInput (inflate : Nat) (pos : Int) : Int :=
  if inflate = 1 then pos else if 0 ≤ pos then pos / (inflate : Int) else 0

/-- Whether a position of the inflated, padded input holds the padding value:
before the start, past the effective extent, or in a hole left by inflation. -/
def isPadding (inflate : Nat) (eff pos : Int) : Bool :=
  decide (pos < 0) || decide (eff ≤ pos) ||
    (decide (inflate ≠ 1) && decide (pos ≠ origInput inflate pos * (inflate : Int)))

/-- Modelled from the spec: value of the extracted patches for a split linear
index (second half of the Eigen `TensorImagePatchOp` evaluator `coeff`; not under
src/): the patch number and the offset inside the patch give a position in the
inflated, padded input; padding positions yield `paddingValue`, the others read
the input. -/
def ImagePatchEvaluator.patchValue {α : Type} (ev : ImagePatchEvaluator) (impl : Nat → α)
    (paddingValue : α) (otherIndex patch2DIndex patchOffset depth : Nat) : α :=
  let colIndex := patch2DIndex / ev.outputRows
  let colOffset := patchOffset / ev.colStride
  let inputCol : Int :=
    (colIndex : Int) * ev.col_strides + (colOffset : Int) * ev.in_col_strides - ev.colPaddingLeft
  let origInputCol := origInput ev.col_inflate_strides inputCol
  if isPadding ev.col_inflate_strides ev.input_cols_eff inputCol then paddingValue
  else
    let rowIndex := patch2DIndex - colIndex * ev.outputRows
    let rowOffset := patchOffset - colOffset * ev.colStride
    let inputRow : Int :=
      (rowIndex : Int) * ev.row_strides + (rowOffset : Int) * ev.in_row_strides - ev.rowPaddingTop
    let origInputRow := origInput ev.row_inflate_strides inputRow
    if isPadding ev.row_inflate_strides ev.input_rows_eff inputRow then paddingValue
    else
      let inputIndex : Int :=
        (depth : Int) + origInputRow * ev.rowInputStride + origInputCol * ev.colInputStride
          + (otherIndex : Int) * ev.patchInputStride
      impl inputIndex.toNat

/-- Modelled from the spec: coefficient `index` of the extracted patches (first
half of the Eigen `TensorImagePatchOp` evaluator `coeff`; not under src/): the
linear index is split into batch, patch number, offset inside the patch and
depth. -/
def ImagePatchEvaluator.coeff {α : Type} (ev : ImagePatchEvaluator) (impl : Nat → α)
    (paddingValue : α) (index : Nat) : α :=
  let patchIndex := index / ev.patchStride
  let patchOffset := (index - patchIndex * ev.patchStride) / ev.inputDepth
  let otherIndex := index / ev.otherStride
  let patch2DIndex := (index - otherIndex * ev.otherStride) / ev.patchStride
  let depth := index - (index / ev.inputDepth) * ev.inputDepth
  ev.patchValue impl paddingValue otherIndex patch2DIndex patchOffset depth

/-- Modelled from the spec: `extract_image_patches` of the tensor library (not
under src/), 13-argument overload: patch extents, strides, patch ("in") strides,
inflate strides, explicit four-sided padding and the padding value. -/
def TensorExpr.extract_image_patches {α : Type} (input : TensorExpr α)
    (patch_rows patch_cols row_stride col_stride in_row_stride in_col_stride
      row_inflate_stride col_inflate_stride
      padding_top padding_bottom padding_left padding_right : Nat)
    (padding_value : α) : TensorExpr α :=
  let ev := ImagePatchEvaluator.make input.dimensions patch_rows patch_cols row_stride col_stride
    in_row_stride in_col_stride row_inflate_stride col_inflate_stride
    padding_top padding_bottom padding_left padding_right
  { dimensions := ev.dimensions, coeff := ev.coeff input.coeff padding_value }

/-- Modelled from the spec: `contract` of the tensor library (not under src/) for
two rank-2 operands and one index pair `(a, b)`: axis `a` of the left operand is
summed against axis `b` of the right one; the result has the left operand's free
axis first. With the pair `(1, 0)` this is the dense matrix product. -/
def TensorExpr.contract {α : Type} [CommRing α] (lhs rhs : TensorExpr α)
    (contract_dims : Nat × Nat) : TensorExpr α :=
  let l0 := lhs.dimensions.getD 0 0
  let l1 := lhs.dimensions.getD 1 0
  let r0 := rhs.dimensions.getD 0 0
  let r1 := rhs.dimensions.getD 1 0
  let m := if contract_dims.1 = 1 then l0 else l1
  let k := if contract_dims.1 = 1 then l1 else l0
  let n := if contract_dims.2 = 0 then r1 else r0
  let lhsAt : Nat → Nat → α := fun i j =>
    if contract_dims.1 = 1 then lhs.coeff (i * l1 + j) else lhs.coeff (j * l1 + i)
  let rhsAt : Nat → Nat → α := fun j c =>
    if contract_dims.2 = 0 then rhs.coeff (j * r1 + c) else rhs.coeff (c * r1 + j)
  { dimensions := [m, n],
    coeff := fun index => ∑ j in Finset.range k, lhsAt (index / n) j * rhsAt j (index % n) }

/-! ## Assignment to the output view -/

/-- One store to memory: element `w.1` receives `w.2`. -/
def store {α : Type} (mem : Nat → α) (w : Nat × α) : Nat → α :=
  fun k => if k = w.1 then w.2 else mem k

/-- Perform a sequence of stores, first to last. -/
def runWrites {α : Type} (mem : Nat → α) (ws : List (Nat × α)) : Nat → α :=
  ws.foldl store mem

/-- Modelled from the spec: evaluation of `output.device(device) = expr` (the
tensor library's executor, not under src/): one store per coefficient of the
right-hand side, for linear index `0` up to its size. -/
def assignWrites {α : Type} (expr : TensorExpr α) : List (Nat × α) :=
  (List.range expr.size).map (fun i => (i, expr.coeff i))

/-! ## `EigenConvImpl` -/

/-- The `pre_contract_dims` of `EigenConvImpl`: the shape the extracted patches
are molded into. -/
def pre_contract_dims (p : ConvParams) : List Nat :=
  [p.output_cols * p.output_rows * p.input_batch, p.kernel_channels * p.kernel_cols * p.kernel_rows]

/-- The `post_contract_dims` of `EigenConvImpl`: the shape expected by the user. -/
def post_contract_dims (p : ConvParams) : List Nat :=
  [p.input_batch, p.output_rows, p.output_cols, p.kernel_filters]

/-- The `kernel_dims` of `EigenConvImpl`: the kernel as a matrix. -/
def kernel_dims (p : ConvParams) : List Nat :=
  [p.kernel_channels * p.kernel_cols * p.kernel_rows, p.kernel_filters]

/-- The `contract_dims` of `EigenConvImpl`: `IndexPair(1, 0)`. -/
def contract_dims : Nat × Nat := (1, 0)

/-- The `output` view of `EigenConvImpl` over the output buffer. -/
def outputView {α : Type} (out : Nat → α) (p : ConvParams) : TensorExpr α :=
  TensorMap out [p.input_batch, p.output_rows, p.output_cols, p.kernel_filters]

/-- The patch matrix of `EigenConvImpl`: patch extraction (rows and columns
flipped) reshaped to `pre_contract_dims`. -/
def patchMatrix {α : Type} [CommRing α] (lhs : Nat → α) (p : ConvParams) : TensorExpr α :=
  let input := TensorMap lhs [p.input_batch, p.input_rows, p.input_cols, p.input_channels]
  (input.extract_image_patches p.kernel_cols p.kernel_rows p.col_stride p.row_stride
      p.rhs_col_dilation p.rhs_row_dilation p.lhs_col_dilation p.lhs_row_dilation
      p.padding_left p.padding_right p.padding_top p.padding_bottom 0).reshape (pre_contract_dims p)

/-- The kernel matrix of `EigenConvImpl`: the kernel view reshaped to `kernel_dims`. -/
def kernelMatrix {α : Type} (rhs : Nat → α) (p : ConvParams) : TensorExpr α :=
  let kernel := TensorMap rhs [p.kernel_rows, p.kernel_cols, p.kernel_channels, p.kernel_filters]
  kernel.reshape (kernel_dims p)

/-- The tensor expression assigned to `output` by `EigenConvImpl`: the patch
matrix contracted with the kernel matrix, reshaped to `post_contract_dims`. -/
def EigenConvExpr {α : Type} [CommRing α] (lhs rhs : Nat → α) (p : ConvParams) : TensorExpr α :=
  ((patchMatrix lhs p).contract (kernelMatrix rhs p) contract_dims).reshape (post_contract_dims p)

/-- The stores performed by `EigenConvImpl` on the output buffer. -/
def EigenConvWrites {α : Type} [CommRing α] (lhs rhs : Nat → α) (p : ConvParams) :
    List (Nat × α) :=
  assignWrites (EigenConvExpr lhs rhs p)

/-- `EigenConvImpl`: the output memory after the call, given the output memory
before it (`out`), the input (`lhs`) and the kernel (`rhs`). -/
def EigenConvImpl {Device α : Type} [CommRing α] (_device : Device) (out lhs rhs : Nat → α)
    (p : ConvParams) : Nat → α :=
  runWrites out (EigenConvWrites lhs rhs p)

/-- The patch evaluator that `EigenConvImpl` builds: `extract_image_patches` on
the input view with the source's (flipped) argument order. -/
def patchEvaluator (p : ConvParams) : ImagePatchEvaluator :=
  ImagePatchEvaluator.make [p.input_batch, p.input_rows, p.input_cols, p.input_channels]
    p.kernel_cols p.kernel_rows p.col_stride p.row_stride
    p.rhs_col_dilation p.rhs_row_dilation p.lhs_col_dilation p.lhs_row_dilation
    p.padding_left p.padding_right p.padding_top p.padding_bottom

/-! ## Vendor engine (model of the descriptor-driven primitives) -/

/-- Memory layout tags (`memory::format`) used by `MKLConvImpl`, and the
engine-internal layouts, told apart by a number. -/
inductive Format where
  | nhwc
  | hwio
  | any
  | internal (tag : Nat)
deriving DecidableEq

/-- A memory descriptor (`memory::desc`): logical extents and layout tag; the data
type is always `f32` in the source. The logical axis order is (batch, channels,
rows, cols) for activations and (out-channels, in-channels, rows, cols) for
weights, whatever the layout. -/
structure MemoryDesc where
  dims : List Int
  format : Format
deriving DecidableEq

/-- Propagation kinds of the vendor library. -/
inductive PropKind where
  | forward_training
  | forward_inference
deriving DecidableEq

/-- Convolution algorithms of the vendor library. -/
inductive Algorithm where
  | convolution_direct
  | convolution_winograd
deriving DecidableEq

/-- Padding kinds of the vendor library. -/
inductive PaddingKind where
  | zero
deriving DecidableEq

/-- A convolution descriptor (`convolution_forward::desc`), fields in the order
of the constructor call in the source. -/
structure ConvolutionDesc where
  aprop_kind : PropKind
  aalgorithm : Algorithm
  src_desc : MemoryDesc
  weights_desc : MemoryDesc
  dst_desc : MemoryDesc
  strides : List Int
  dilates : List Int
  padding_l : List Int
  padding_r : List Int
  apadding_kind : PaddingKind
deriving DecidableEq

/-- Modelled from the spec: the vendor compute engine (MKL-DNN, not under src/)
as far as the routine sees it: for a convolution descriptor whose layouts are
left unspecified it picks the layouts the primitive prefers. -/
structure Engine where
  src_format : ConvolutionDesc → Format
  weights_format : ConvolutionDesc → Format
  dst_format : ConvolutionDesc → Format

/-- Modelled from the spec: `convolution_forward::primitive_desc` (not under
src/): the descriptor together with the layouts the engine chose. -/
structure ConvolutionPrimitiveDesc where
  desc : ConvolutionDesc
  src_primitive_desc : MemoryDesc
  weights_primitive_desc : MemoryDesc
  dst_primitive_desc : MemoryDesc
deriving DecidableEq

/-- Modelled from the spec: construction of the primitive descriptor by the
engine (not under src/). Descriptor validation by the engine, which aborts the
routine on unsupported configurations, is not modelled. -/
def convolution_forward_primitive_desc (desc : ConvolutionDesc) (engine : Engine) :
    ConvolutionPrimitiveDesc :=
  { desc := desc,
    src_primitive_desc := { dims := desc.src_desc.dims, format := engine.src_format desc },
    weights_primitive_desc :=
      { dims := desc.weights_desc.dims, format := engine.weights_format desc },
    dst_primitive_desc := { dims := desc.dst_desc.dims, format := engine.dst_format desc } }

/-- The data behind a memory object: one of the three user buffers, or a buffer
the engine allocated for one of the three memories the routine creates from a
primitive descriptor. -/
inductive DataHandle where
  | lhs
  | rhs
  | out
  | conv1_src
  | conv1_weights
  | conv1_dst
deriving DecidableEq

/-- A memory object (`memory`): descriptor and data. -/
structure Memory where
  desc : MemoryDesc
  handle : DataHandle
deriving DecidableEq

/-- The primitives the routine queues. -/
inductive Primitive where
  | reorder (src dst : Memory)
  | convolution_forward (pd : ConvolutionPrimitiveDesc) (src weights dst : Memory)
deriving DecidableEq

/-- The `conv1_src_tz` of `MKLConvImpl`. -/
def conv1_src_tz (p : ConvParams) : List Int :=
  [p.input_batch, p.input_channels, p.input_rows, p.input_cols]

/-- The `conv1_weights_tz` of `MKLConvImpl`. -/
def conv1_weights_tz (p : ConvParams) : List Int :=
  [p.kernel_filters, p.kernel_channels, p.kernel_rows, p.kernel_cols]

/-- The `conv1_dst_tz` of `MKLConvImpl`. -/
def conv1_dst_tz (p : ConvParams) : List Int :=
  [p.input_batch, p.kernel_filters, p.output_rows, p.output_cols]

/-- The `conv1_strides` of `MKLConvImpl`. -/
def conv1_strides (p : ConvParams) : List Int := [p.row_stride, p.col_stride]

/-- The `conv1_dilates` of `MKLConvImpl`: the kernel dilation factors minus one. -/
def conv1_dilates (p : ConvParams) : List Int :=
  [(p.rhs_row_dilation : Int) - 1, (p.rhs_col_dilation : Int) - 1]

/-- The `conv1_padding_l` of `MKLConvImpl`. -/
def conv1_padding_l (p : ConvParams) : List Int := [p.padding_top, p.padding_left]

/-- The `conv1_padding_r` of `MKLConvImpl`. -/
def conv1_padding_r (p : ConvParams) : List Int := [p.padding_bottom, p.padding_right]

/-- The `user_src_memory` of `MKLConvImpl`: the input buffer, tagged `nhwc`. -/
def user_src_memory (p : ConvParams) : Memory :=
  { desc := { dims := conv1_src_tz p, format := Format.nhwc }, handle := DataHandle.lhs }

/-- The `user_weights_memory` of `MKLConvImpl`: the kernel buffer, tagged `hwio`. -/
def user_weights_memory (p : ConvParams) : Memory :=
  { desc := { dims := conv1_weights_tz p, format := Format.hwio }, handle := DataHandle.rhs }

/-- The `user_dst_memory` of `MKLConvImpl`: the output buffer, tagged `nhwc`. -/
def user_dst_memory (p : ConvParams) : Memory :=
  { desc := { dims := conv1_dst_tz p, format := Format.nhwc }, handle := DataHandle.out }

/-- The `conv1_src_md` of `MKLConvImpl`: no specified format. -/
def conv1_src_md (p : ConvParams) : MemoryDesc :=
  { dims := conv1_src_tz p, format := Format.any }

/-- The `conv1_weights_md` of `MKLConvImpl`: no specified format. -/
def conv1_weights_md (p : ConvParams) : MemoryDesc :=
  { dims := conv1_weights_tz p, format := Format.any }

/-- The `conv1_dst_md` of `MKLConvImpl`: no specified format. -/
def conv1_dst_md (p : ConvParams) : MemoryDesc :=
  { dims := conv1_dst_tz p, format := Format.any }

/-- The `conv1_desc` of `MKLConvImpl`: the descriptor handed to the vendor
primitive. The input-side dilation arguments do not occur. -/
def conv1_desc (p : ConvParams) : ConvolutionDesc :=
  { aprop_kind := PropKind.forward_inference, aalgorithm := Algorithm.convolution_direct,
    src_desc := conv1_src_md p, weights_desc := conv1_weights_md p, dst_desc := conv1_dst_md p,
    strides := conv1_strides p, dilates := conv1_dilates p,
    padding_l := conv1_padding_l p, padding_r := conv1_padding_r p,
    apadding_kind := PaddingKind.zero }

/-- The `conv1_prim_desc` of `MKLConvImpl`. -/
def conv1_prim_desc (cpu_engine : Engine) (p : ConvParams) : ConvolutionPrimitiveDesc :=
  convolution_forward_primitive_desc (conv1_desc p) cpu_engine

/-- What `MKLConvImpl` builds before it submits: the two queues, and the queues
in submission order. -/
structure MKLConvNet where
  net_weights : List Primitive
  net : List Primitive
  submitted : List (List Primitive)
deriving DecidableEq

/-- The queue construction of `MKLConvImpl`: the conditional reorders of source
and weights, the convolution, the conditional reorder of the destination, and
the two submissions. -/
def MKLConvBuild (cpu_engine : Engine) (p : ConvParams) : MKLConvNet :=
  let net : List Primitive := []
  let net_weights : List Primitive := []
  let conv1_src_memory := user_src_memory p
  let (conv1_src_memory, net) :=
    if (conv1_prim_desc cpu_engine p).src_primitive_desc ≠ (user_src_memory p).desc then
      let conv1_src_memory : Memory :=
        { desc := (conv1_prim_desc cpu_engine p).src_primitive_desc,
          handle := DataHandle.conv1_src }
      (conv1_src_memory, net ++ [Primitive.reorder (user_src_memory p) conv1_src_memory])
    else (conv1_src_memory, net)
  let conv1_weights_memory := user_weights_memory p
  let (conv1_weights_memory, net_weights) :=
    if (conv1_prim_desc cpu_engine p).weights_primitive_desc ≠ (user_weights_memory p).desc then
      let conv1_weights_memory : Memory :=
        { desc := (conv1_prim_desc cpu_engine p).weights_primitive_desc,
          handle := DataHandle.conv1_weights }
      (conv1_weights_memory,
        net_weights ++ [Primitive.reorder (user_weights_memory p) conv1_weights_memory])
    else (conv1_weights_memory, net_weights)
  let need_output_conversion : Bool :=
    decide ((conv1_prim_desc cpu_engine p).dst_primitive_desc ≠ (user_dst_memory p).desc)
  let conv1_dst_memory : Memory :=
    if need_output_conversion then
      { desc := (conv1_prim_desc cpu_engine p).dst_primitive_desc,
        handle := DataHandle.conv1_dst }
    else user_dst_memory p
  let net := net ++ [Primitive.convolution_forward (conv1_prim_desc cpu_engine p)
    conv1_src_memory conv1_weights_memory conv1_dst_memory]
  let net := if need_output_conversion then
      net ++ [Primitive.reorder conv1_dst_memory (user_dst_memory p)]
    else net
  { net_weights := net_weights, net := net, submitted := [net_weights, net] }

/-- A tensor by logical coordinates: (batch, channel, row, col) for activations,
(out-channel, in-channel, row, col) for weights. -/
abbrev Logical (α : Type) : Type := Nat → Nat → Nat → Nat → α

/-- Extent `i` of a dimension vector. -/
def dimAt (dims : List Int) (i : Nat) : Nat := (dims.getD i 0).toNat

/-- Number of elements of a memory. -/
def MemoryDesc.size (md : MemoryDesc) : Nat :=
  dimAt md.dims 0 * dimAt md.dims 1 * dimAt md.dims 2 * dimAt md.dims 3

/-- Modelled from the spec: element offset of a logical coordinate in a memory of
the given layout (vendor library, not under src/): channel-last for `nhwc`,
(row, col, in-channel, out-channel) for `hwio`; the other tags are never attached
to a user buffer and are given the plain logical order. -/
def MemoryDesc.offset (md : MemoryDesc) (n c h w : Nat) : Nat :=
  match md.format with
  | Format.nhwc => ((n * dimAt md.dims 2 + h) * dimAt md.dims 3 + w) * dimAt md.dims 1 + c
  | Format.hwio => ((h * dimAt md.dims 3 + w) * dimAt md.dims 1 + c) * dimAt md.dims 0 + n
  | _ => ((n * dimAt md.dims 1 + c) * dimAt md.dims 2 + h) * dimAt md.dims 3 + w

/-- Logical coordinate `(n, c, h, w)` stored at an element offset: the inverse
of `MemoryDesc.offset` on the memory's extent. -/
def MemoryDesc.decode (md : MemoryDesc) (k : Nat) : Nat × Nat × Nat × Nat :=
  match md.format with
  | Format.nhwc =>
      (k / (dimAt md.dims 1 * dimAt md.dims 3 * dimAt md.dims 2), k % dimAt md.dims 1,
        k / (dimAt md.dims 1 * dimAt md.dims 3) % dimAt md.dims 2,
        k / dimAt md.dims 1 % dimAt md.dims 3)
  | Format.hwio =>
      (k % dimAt md.dims 0, k / dimAt md.dims 0 % dimAt md.dims 1,
        k / (dimAt md.dims 0 * dimAt md.dims 1 * dimAt md.dims 3),
        k / (dimAt md.dims 0 * dimAt md.dims 1) % dimAt md.dims 3)
  | _ =>
      (k / (dimAt md.dims 3 * dimAt md.dims 2 * dimAt md.dims 1),
        k / (dimAt md.dims 3 * dimAt md.dims 2) % dimAt md.dims 1,
        k / dimAt md.dims 3 % dimAt md.dims 2, k % dimAt md.dims 3)

/-- The memory the engine works on during one call: the user output buffer and
the logical contents of the three engine-allocated memories. The input and the
kernel buffer are read-only. -/
structure EngineState (α : Type) where
  out : Nat → α
  conv1_src : Logical α
  conv1_weights : Logical α
  conv1_dst : Logical α

/-- Logical contents of a memory object: a user buffer is read through its
layout, an engine-allocated memory holds its logical tensor. -/
def Memory.read {α : Type} (m : Memory) (lhs rhs : Nat → α) (st : EngineState α) : Logical α :=
  match m.handle with
  | DataHandle.lhs => fun n c h w => lhs (m.desc.offset n c h w)
  | DataHandle.rhs => fun n c h w => rhs (m.desc.offset n c h w)
  | DataHandle.out => fun n c h w => st.out (m.desc.offset n c h w)
  | DataHandle.conv1_src => st.conv1_src
  | DataHandle.conv1_weights => st.conv1_weights
  | DataHandle.conv1_dst => st.conv1_dst

/-- Store a logical tensor into a memory object: into the user output buffer
every element of the memory's extent is written through the layout, the rest of
the buffer is left alone; the input and kernel buffers are never a destination. -/
def Memory.write {α : Type} (m : Memory) (t : Logical α) (st : EngineState α) : EngineState α :=
  match m.handle with
  | DataHandle.lhs => st
  | DataHandle.rhs => st
  | DataHandle.out =>
      { st with out := fun k =>
          let q := m.desc.decode k
          if k < m.desc.size then t q.1 q.2.1 q.2.2.1 q.2.2.2 else st.out k }
  | DataHandle.conv1_src => { st with conv1_src := t }
  | DataHandle.conv1_weights => { st with conv1_weights := t }
  | DataHandle.conv1_dst => { st with conv1_dst := t }

/-- The vendor rule for the input index read by tap `k` of output `o` along one
axis, with the vendor's zero-based dilation. -/
def vendorTapPosition (o stride k dilate pad_l : Int) : Int :=
  o * stride + k * (dilate + 1) - pad_l

/-- The source tensor extended by zeros (`padding_kind::zero`). -/
def zeroExtended {α : Type} [CommRing α] (src : Logical α) (rows cols : Nat)
    (n c : Nat) (y x : Int) : α :=
  if 0 ≤ y ∧ y < rows ∧ 0 ≤ x ∧ x < cols then src n c y.toNat x.toNat else 0

/-- Modelled from the spec: the vendor's direct forward convolution (MKL-DNN
`convolution_forward`, not under src/) on the descriptor it is given:
destination `(n, oc, oh, ow)` is the sum over in-channels and kernel taps of the
zero-extended source at the tap position times the weight. -/
def convolution_forward_compute {α : Type} [CommRing α] (desc : ConvolutionDesc)
    (src weights : Logical α) : Logical α := fun n oc oh ow =>
  ∑ ic in Finset.range (dimAt desc.weights_desc.dims 1),
    ∑ kh in Finset.range (dimAt desc.weights_desc.dims 2),
      ∑ kw in Finset.range (dimAt desc.weights_desc.dims 3),
        zeroExtended src (dimAt desc.src_desc.dims 2) (dimAt desc.src_desc.dims 3) n ic
            (vendorTapPosition oh (desc.strides.getD 0 0) kh (desc.dilates.getD 0 0)
              (desc.padding_l.getD 0 0))
            (vendorTapPosition ow (desc.strides.getD 1 0) kw (desc.dilates.getD 1 0)
              (desc.padding_l.getD 1 0))
          * weights oc ic kh kw

/-- Modelled from the spec: execution of one queued primitive (vendor library,
not under src/): a reorder copies the logical contents of its source into its
destination; a convolution stores the convolution of its source and weights. -/
def Primitive.execute {α : Type} [CommRing α] (lhs rhs : Nat → α) (st : EngineState α) :
    Primitive → EngineState α
  | Primitive.reorder src dst => dst.write (src.read lhs rhs st) st
  | Primitive.convolution_forward pd src weights dst =>
      dst.write (convolution_forward_compute pd.desc (src.read lhs rhs st)
        (weights.read lhs rhs st)) st

/-- Modelled from the spec: `stream(eager).submit(queue).wait()` (vendor library,
not under src/): the primitives of the queue run to completion, first to last. -/
def submit {α : Type} [CommRing α] (lhs rhs : Nat → α) (st : EngineState α)
    (queue : List Primitive) : EngineState α :=
  queue.foldl (Primitive.execute lhs rhs) st

/-- `MKLConvImpl`: the output memory after the call. The queues built by
`MKLConvBuild` are submitted in order; engine-allocated memories start zeroed.
The engine the routine creates (`engine(engine::cpu, 0)`) is an argument here,
since its layout preferences are not fixed by the source. -/
def MKLConvImpl {Device α : Type} [CommRing α] (_device : Device) (cpu_engine : Engine)
    (out lhs rhs : Nat → α) (p : ConvParams) : Nat → α :=
  let st : EngineState α :=
    { out := out, conv1_src := fun _ _ _ _ => 0, conv1_weights := fun _ _ _ _ => 0,
      conv1_dst := fun _ _ _ _ => 0 }
  ((MKLConvBuild cpu_engine p).submitted.foldl (submit lhs rhs) st).out

/-! ## The convolution as the specification words it -/

/-- The standard convolution output-size formula along one axis: the input
extent inflated by the input-side dilation and padded on both sides, the kernel
extent spread by the kernel-side dilation, floor division by the stride; `0`
when the spread kernel does not fit. -/
def convOutputSize (input lhs_dilation pad_lo pad_hi kernel rhs_dilation stride : Nat) : Nat :=
  if (kernel - 1) * rhs_dilation + 1 ≤ (input - 1) * lhs_dilation + 1 + pad_lo + pad_hi then
    ((input - 1) * lhs_dilation + 1 + pad_lo + pad_hi - ((kernel - 1) * rhs_dilation + 1)) / stride + 1
  else 0

/-- Valid `ConvParams`: extents, strides and dilation factors at least one, the
kernel's channel count that of the input, and output extents given by the
standard output-size formula. -/
def ConvParams.Valid (p : ConvParams) : Prop :=
  1 ≤ p.input_batch ∧ 1 ≤ p.input_rows ∧ 1 ≤ p.input_cols ∧ 1 ≤ p.input_channels ∧
  1 ≤ p.kernel_rows ∧ 1 ≤ p.kernel_cols ∧ 1 ≤ p.kernel_channels ∧ 1 ≤ p.kernel_filters ∧
  1 ≤ p.output_rows ∧ 1 ≤ p.output_cols ∧
  1 ≤ p.row_stride ∧ 1 ≤ p.col_stride ∧
  1 ≤ p.lhs_row_dilation ∧ 1 ≤ p.lhs_col_dilation ∧
  1 ≤ p.rhs_row_dilation ∧ 1 ≤ p.rhs_col_dilation ∧
  p.kernel_channels = p.input_channels ∧
  p.output_rows = convOutputSize p.input_rows p.lhs_row_dilation p.padding_top p.padding_bottom
    p.kernel_rows p.rhs_row_dilation p.row_stride ∧
  p.output_cols = convOutputSize p.input_cols p.lhs_col_dilation p.padding_left p.padding_right
    p.kernel_cols p.rhs_col_dilation p.col_stride

instance (p : ConvParams) : Decidable p.Valid := by
  unfold ConvParams.Valid; infer_instance

/-- The conceptually dilated and zero-padded input `P(b, y, x, c)`: the input
element at row `y / lhs_row_dilation`, column `x / lhs_col_dilation` when `y` and
`x` are non-negative, divisible by the input-side dilation factors and the
quotients are inside the input; zero otherwise. -/
def paddedInput {α : Type} [CommRing α] (lhs : Nat → α) (p : ConvParams)
    (b : Nat) (y x : Int) (c : Nat) : α :=
  if 0 ≤ y ∧ 0 ≤ x ∧ (p.lhs_row_dilation : Int) ∣ y ∧ (p.lhs_col_dilation : Int) ∣ x ∧
      y / (p.lhs_row_dilation : Int) < p.input_rows ∧ x / (p.lhs_col_dilation : Int) < p.input_cols then
    lhs (((b * p.input_rows + (y / (p.lhs_row_dilation : Int)).toNat) * p.input_cols
      + (x / (p.lhs_col_dilation : Int)).toNat) * p.input_channels + c)
  else 0

/-- The strided, dilated, zero-padded cross-correlation at output position
`(b, i, j, f)`. -/
def crossCorrelation {α : Type} [CommRing α] (lhs rhs : Nat → α) (p : ConvParams)
    (b i j f : Nat) : α :=
  ∑ kr in Finset.range p.kernel_rows, ∑ kc in Finset.range p.kernel_cols,
    ∑ c in Finset.range p.kernel_channels,
      paddedInput lhs p b
          ((i : Int) * p.row_stride + (kr : Int) * p.rhs_row_dilation - p.padding_top)
          ((j : Int) * p.col_stride + (kc : Int) * p.rhs_col_dilation - p.padding_left) c
        * rhs (((kr * p.kernel_cols + kc) * p.kernel_channels + c) * p.kernel_filters + f)

/-- Row-major offset of output element `(b, i, j, f)`. -/
def outputOffset (p : ConvParams) (b i j f : Nat) : Nat :=
  ((b * p.output_rows + i) * p.output_cols + j) * p.kernel_filters + f

/-- The input with rows and columns exchanged: the buffer of shape
(batch, input_cols, input_rows, channels) whose element `(b, x, y, c)` is element
`(b, y, x, c)` of `lhs`. -/
def transposeInput {α : Type} (lhs : Nat → α) (p : ConvParams) : Nat → α := fun k =>
  let c := k % p.input_channels
  let y := k / p.input_channels % p.input_rows
  let x := k / (p.input_channels * p.input_rows) % p.input_cols
  let b := k / (p.input_channels * p.input_rows * p.input_cols)
  lhs (((b * p.input_rows + y) * p.input_cols + x) * p.input_channels + c)

/-- The kernel with rows and columns exchanged: the buffer of shape
(kernel_cols, kernel_rows, channels, filters) whose element `(kc, kr, c, f)` is
element `(kr, kc, c, f)` of `rhs`. -/
def transposeKernel {α : Type} (rhs : Nat → α) (p : ConvParams) : Nat → α := fun k =>
  let f := k % p.kernel_filters
  let c := k / p.kernel_filters % p.kernel_channels
  let kr := k / (p.kernel_filters * p.kernel_channels) % p.kernel_rows
  let kc := k / (p.kernel_filters * p.kernel_channels * p.kernel_rows)
  rhs (((kr * p.kernel_cols + kc) * p.kernel_channels + c) * p.kernel_filters + f)

/-- The parameter set with every row/column pair exchanged. -/
def ConvParams.transpose (p : ConvParams) : ConvParams :=
  { p with
    input_rows := p.input_cols, input_cols := p.input_rows,
    kernel_rows := p.kernel_cols, kernel_cols := p.kernel_rows,
    output_rows := p.output_cols, output_cols := p.output_rows,
    row_stride := p.col_stride, col_stride := p.row_stride,
    lhs_row_dilation := p.lhs_col_dilation, lhs_col_dilation := p.lhs_row_dilation,
    rhs_row_dilation := p.rhs_col_dilation, rhs_col_dilation := p.rhs_row_dilation,
    padding_top := p.padding_left, padding_left := p.padding_top,
    padding_bottom := p.padding_right, padding_right := p.padding_bottom }

/-- The input explicitly surrounded by zeros: the buffer of shape
(batch, padding_top + input_rows + padding_bottom,
padding_left + input_cols + padding_right, channels) holding `lhs` in its
interior and zero in the border. -/
def zeroPadInput {α : Type} [CommRing α] (lhs : Nat → α) (p : ConvParams) : Nat → α := fun k =>
  let rows := p.input_rows + p.padding_top + p.padding_bottom
  let cols := p.input_cols + p.padding_left + p.padding_right
  let c := k % p.input_channels
  let x := k / p.input_channels % cols
  let y := k / (p.input_channels * cols) % rows
  let b := k / (p.input_channels * cols * rows)
  if p.padding_top ≤ y ∧ y < p.padding_top + p.input_rows ∧
      p.padding_left ≤ x ∧ x < p.padding_left + p.input_cols then
    lhs (((b * p.input_rows + (y - p.padding_top)) * p.input_cols + (x - p.padding_left))
      * p.input_channels + c)
  else 0

/-- The parameter set for the explicitly padded input: input extents enlarged by
the paddings, all four paddings zero. -/
def ConvParams.explicitlyPadded (p : ConvParams) : ConvParams :=
  { p with
    input_rows := p.input_rows + p.padding_top + p.padding_bottom,
    input_cols := p.input_cols + p.padding_left + p.padding_right,
    padding_top := 0, padding_bottom := 0, padding_left := 0, padding_right := 0 }

/-! ## Concrete instances -/

/-- An input buffer holding `1, 2, 3, ...`. -/
def rampInput : Nat → Int := fun k => (k : Int) + 1

/-- A kernel buffer holding `1, 10, 100, ...`. -/
def decimalKernel : Nat → Int := fun k => (10 : Int) ^ k

/-- An output buffer holding `-7` everywhere before the call. -/
def sentinelOutput : Nat → Int := fun _ => -7

/-- Batch 1, 4x4 input, 2x2 kernel, 1 channel, 1 filter, stride 1, no padding, no
dilation: 3x3 output. -/
def params4x4 : ConvParams :=
  { input_batch := 1, input_rows := 4, input_cols := 4, input_channels := 1,
    kernel_rows := 2, kernel_cols := 2, kernel_channels := 1, kernel_filters := 1,
    output_rows := 3, output_cols := 3, row_stride := 1, col_stride := 1,
    padding_top := 0, padding_bottom := 0, padding_left := 0, padding_right := 0,
    lhs_row_dilation := 1, lhs_col_dilation := 1, rhs_row_dilation := 1, rhs_col_dilation := 1 }

/-- A strided, padded, doubly dilated instance: 3x3 input with 2 channels, rows
inflated by 2; 2x2 kernel with rows spread by 2, 2 filters; strides (1, 2);
paddings top 1, bottom 0, left 1, right 1: 4x2 output. -/
def paramsGeneral : ConvParams :=
  { input_batch := 1, input_rows := 3, input_cols := 3, input_channels := 2,
    kernel_rows := 2, kernel_cols := 2, kernel_channels := 2, kernel_filters := 2,
    output_rows := 4, output_cols := 2, row_stride := 1, col_stride := 2,
    padding_top := 1, padding_bottom := 0, padding_left := 1, padding_right := 1,
    lhs_row_dilation := 2, lhs_col_dilation := 1, rhs_row_dilation := 2, rhs_col_dilation := 1 }

/-- A padded instance without input-side dilation: 3x2 input with 2 channels, 2x2
kernel with columns spread by 2, 2 filters, strides (1, 2), paddings top 1,
bottom 2, left 2, right 1: 5x2 output. -/
def paramsPadded : ConvParams :=
  { input_batch := 1, input_rows := 3, input_cols := 2, input_channels := 2,
    kernel_rows := 2, kernel_cols := 2, kernel_channels := 2, kernel_filters := 2,
    output_rows := 5, output_cols := 2, row_stride := 1, col_stride := 2,
    padding_top := 1, padding_bottom := 2, padding_left := 2, padding_right := 1,
    lhs_row_dilation := 1, lhs_col_dilation := 1, rhs_row_dilation := 1, rhs_col_dilation := 2 }

/-- Kernel-side dilation 2: 4x4 input, 2x2 kernel spread to 3x3, 1 channel, 2
filters, stride 1, no padding: 2x2 output. -/
def paramsDilated : ConvParams :=
  { input_batch := 1, input_rows := 4, input_cols := 4, input_channels := 1,
    kernel_rows := 2, kernel_cols := 2, kernel_channels := 1, kernel_filters := 2,
    output_rows := 2, output_cols := 2, row_stride := 1, col_stride := 1,
    padding_top := 0, padding_bottom := 0, padding_left := 0, padding_right := 0,
    lhs_row_dilation := 1, lhs_col_dilation := 1, rhs_row_dilation := 2, rhs_col_dilation := 2 }

/-- A kernel buffer for `paramsDilated` that is zero except for the tap `5` at
kernel position (1, 1), channel 0, filter 1 (offset 7). -/
def singleTapKernel : Nat → Int := fun k => if k = 7 then 5 else 0

/-- Input-side dilation 2 on the rows: 2x1 input inflated to 3x1, 2x1 kernel, row
stride 3: 1x1 output, also by the size formula without the inflation. -/
def paramsLhsDilated : ConvParams :=
  { input_batch := 1, input_rows := 2, input_cols := 1, input_channels := 1,
    kernel_rows := 2, kernel_cols := 1, kernel_channels := 1, kernel_filters := 1,
    output_rows := 1, output_cols := 1, row_stride := 3, col_stride := 1,
    padding_top := 0, padding_bottom := 0, padding_left := 0, padding_right := 0,
    lhs_row_dilation := 2, lhs_col_dilation := 1, rhs_row_dilation := 1, rhs_col_dilation := 1 }

/-- Output extents that do not follow the size formula: 4x1 input, 1x1 kernel,
stride 1, for which the formula gives a 4x1 output, declared as 2x2. -/
def paramsInconsistent : ConvParams :=
  { input_batch := 1, input_rows := 4, input_cols := 1, input_channels := 1,
    kernel_rows := 1, kernel_cols := 1, kernel_channels := 1, kernel_filters := 1,
    output_rows := 2, output_cols := 2, row_stride := 1, col_stride := 1,
    padding_top := 0, padding_bottom := 0, padding_left := 0, padding_right := 0,
    lhs_row_dilation := 1, lhs_col_dilation := 1, rhs_row_dilation := 1, rhs_col_dilation := 1 }

/-- An engine that prefers the user layouts: no reorder is queued. -/
def engineUserLayouts : Engine :=
  { src_format := fun _ => Format.nhwc, weights_format := fun _ => Format.hwio,
    dst_format := fun _ => Format.nhwc }

/-- An engine that prefers layouts of its own: all three reorders are queued. -/
def engineOwnLayouts : Engine :=
  { src_format := fun _ => Format.internal 1, weights_format := fun _ => Format.internal 2,
    dst_format := fun _ => Format.internal 3 }

/-! ## Index arithmetic -/

theorem split_div (a r n : Nat) (h : r < n) : (a * n + r) / n = a := by
  have hn : 0 < n := by omega
  rw [Nat.add_comm, Nat.add_mul_div_right _ _ hn, Nat.div_eq_of_lt h, Nat.zero_add]

theorem split_mod (a r n : Nat) (h : r < n) : (a * n + r) % n = r := by
  rw [Nat.add_comm, Nat.add_mul_mod_self_right, Nat.mod_eq_of_lt h]

theorem sub_div_mul (a n : Nat) : a - a / n * n = a % n := by
  rw [Nat.mod_def, Nat.mul_comm]

theorem lt_mul_of_split (a r m n : Nat) (ha : a < m) (hr : r < n) : a * n + r < m * n := by
  have h1 : (a + 1) * n ≤ m * n := Nat.mul_le_mul_right n ha
  have h2 : (a + 1) * n = a * n + n := by ring
  omega

/-- A sum over a product range is the double sum over quotient and remainder. -/
theorem sum_range_mul_split {β : Type} [AddCommMonoid β] (m n : Nat) (g : Nat → β) :
    ∑ k in Finset.range (m * n), g k
      = ∑ a in Finset.range m, ∑ r in Finset.range n, g (a * n + r) := by
  induction m with
  | zero => simp
  | succ m ih =>
    rw [Finset.sum_range_succ, ← ih, Nat.succ_mul, Finset.sum_range_add]

/-! ## The assignment writes every coefficient once -/

theorem runWrites_range {α : Type} (v : Nat → α) (n : Nat) (mem : Nat → α) (k : Nat) :
    runWrites mem ((List.range n).map (fun i => (i, v i))) k = if k < n then v k else mem k := by
  induction n with
  | zero => simp [runWrites]
  | succ n ih =>
    simp only [runWrites] at ih ⊢
    rw [List.range_succ, List.map_append, List.foldl_append]
    simp only [List.map_cons, List.map_nil, List.foldl_cons, List.foldl_nil, store]
    by_cases hk : k = n
    · subst hk; simp
    · rw [if_neg hk, ih]
      by_cases h1 : k < n
      · rw [if_pos h1, if_pos (by omega)]
      · rw [if_neg h1, if_neg (by omega)]

theorem EigenConvExpr_size {α : Type} [CommRing α] (lhs rhs : Nat → α) (p : ConvParams) :
    (EigenConvExpr lhs rhs p).size
      = p.input_batch * p.output_rows * p.output_cols * p.kernel_filters := by
  simp [EigenConvExpr, TensorExpr.size, TensorExpr.reshape, post_contract_dims, Nat.mul_assoc]

theorem EigenConvImpl_apply {Device α : Type} [CommRing α] (device : Device)
    (out lhs rhs : Nat → α) (p : ConvParams) (k : Nat) :
    EigenConvImpl device out lhs rhs p k
      = if k < p.input_batch * p.output_rows * p.output_cols * p.kernel_filters then
          (EigenConvExpr lhs rhs p).coeff k
        else out k := by
  unfold EigenConvImpl EigenConvWrites assignWrites
  rw [runWrites_range, EigenConvExpr_size]

/-! ## The patch evaluator reads the dilated, padded input -/

theorem ImagePatchEvaluator.coeff_split {α : Type} (ev : ImagePatchEvaluator) (impl : Nat → α)
    (pv : α) (other p2 off d N : Nat) (hother : ev.otherStride = ev.patchStride * N)
    (hp2 : p2 < N) (hoff : off * ev.inputDepth + d < ev.patchStride) (hd : d < ev.inputDepth)
    (hdiv : ev.inputDepth ∣ ev.patchStride) :
    ev.coeff impl pv ((other * N + p2) * ev.patchStride + (off * ev.inputDepth + d))
      = ev.patchValue impl pv other p2 off d := by
  obtain ⟨q, hq⟩ := hdiv
  have h1 : ((other * N + p2) * ev.patchStride + (off * ev.inputDepth + d)) / ev.patchStride
      = other * N + p2 := split_div _ _ _ hoff
  have h2 : ((other * N + p2) * ev.patchStride + (off * ev.inputDepth + d))
      - (other * N + p2) * ev.patchStride = off * ev.inputDepth + d := Nat.add_sub_cancel_left _ _
  have h3 : (off * ev.inputDepth + d) / ev.inputDepth = off := split_div _ _ _ hd
  have h4 : (other * N + p2) * ev.patchStride + (off * ev.inputDepth + d)
      = other * ev.otherStride + (p2 * ev.patchStride + (off * ev.inputDepth + d)) := by
    rw [hother]; ring
  have h5 : p2 * ev.patchStride + (off * ev.inputDepth + d) < ev.otherStride := by
    rw [hother, Nat.mul_comm ev.patchStride N]
    exact lt_mul_of_split _ _ _ _ hp2 hoff
  have h6 : ((other * N + p2) * ev.patchStride + (off * ev.inputDepth + d)) / ev.otherStride
      = other := by rw [h4]; exact split_div _ _ _ h5
  have h7 : ((other * N + p2) * ev.patchStride + (off * ev.inputDepth + d))
      - other * ev.otherStride = p2 * ev.patchStride + (off * ev.inputDepth + d) := by
    rw [h4]; exact Nat.add_sub_cancel_left _ _
  have h8 : (p2 * ev.patchStride + (off * ev.inputDepth + d)) / ev.patchStride = p2 :=
    split_div _ _ _ hoff
  have h9 : ((other * N + p2) * ev.patchStride + (off * ev.inputDepth + d))
      - ((other * N + p2) * ev.patchStride + (off * ev.inputDepth + d)) / ev.inputDepth
          * ev.inputDepth = d := by
    rw [sub_div_mul]
    have : (other * N + p2) * ev.patchStride + (off * ev.inputDepth + d)
        = ((other * N + p2) * q + off) * ev.inputDepth + d := by rw [hq]; ring
    rw [this]; exact split_mod _ _ _ hd
  unfold ImagePatchEvaluator.coeff
  simp only [h1, h2, h3, h6, h7, h8, h9]

/-- Along one axis: a position of the inflated, padded input is not padding
exactly when it is non-negative, a multiple of the inflation and its quotient
is inside the input. -/
theorem isPadding_eq_false_iff (ld n : Nat) (hld : 1 ≤ ld) (pos : Int) :
    isPadding ld (((n : Int) - 1) * ld + 1) pos = false
      ↔ (0 ≤ pos ∧ (ld : Int) ∣ pos ∧ pos / (ld : Int) < n) := by
  have hldpos : (0 : Int) < ld := by exact_mod_cast hld
  by_cases h1 : ld = 1
  · subst h1
    simp only [isPadding, origInput, Nat.cast_one, mul_one, Int.ediv_one, ne_eq,
      not_true_eq_false, decide_False, Bool.false_and, Bool.or_false, Bool.or_eq_false_iff,
      decide_eq_false_iff_not, not_lt, not_le, one_dvd, true_and, if_true]
    constructor
    · rintro ⟨h, h'⟩; exact ⟨h, by omega⟩
    · rintro ⟨h, h'⟩; exact ⟨h, by omega⟩
  · have ho : origInput ld pos = if 0 ≤ pos then pos / (ld : Int) else 0 := by
      unfold origInput; rw [if_neg h1]
    simp only [isPadding, ho, ne_eq, h1, not_false_eq_true, decide_True,
      Bool.true_and, Bool.or_eq_false_iff, decide_eq_false_iff_not, not_lt, not_le, not_not]
    constructor
    · rintro ⟨⟨h0, hlt⟩, hq⟩
      rw [if_pos h0] at hq
      refine ⟨h0, ⟨pos / (ld : Int), by rw [mul_comm]; exact hq⟩, ?_⟩
      by_contra hge
      have hge' : (n : Int) ≤ pos / (ld : Int) := not_lt.mp hge
      have : (n : Int) * ld ≤ pos / (ld : Int) * ld :=
        Int.mul_le_mul_of_nonneg_right hge' (le_of_lt hldpos)
      have h3 : (n : Int) * ld = ((n : Int) - 1) * ld + ld := by ring
      omega
    · rintro ⟨h0, hdvd, hlt⟩
      have hq : pos / (ld : Int) * ld = pos := Int.ediv_mul_cancel hdvd
      refine ⟨⟨h0, ?_⟩, ?_⟩
      · have hle : pos / (ld : Int) ≤ (n : Int) - 1 := by omega
        have : pos / (ld : Int) * ld ≤ ((n : Int) - 1) * ld :=
          Int.mul_le_mul_of_nonneg_right hle (le_of_lt hldpos)
        omega
      · rw [if_pos h0]; exact hq.symm

theorem origInput_eq_div (ld : Nat) (pos : Int) (h0 : 0 ≤ pos) :
    origInput ld pos = pos / (ld : Int) := by
  unfold origInput
  by_cases h1 : ld = 1
  · subst h1; simp
  · rw [if_neg h1, if_pos h0]

/-- The library's patch count along one axis is the standard output size. -/
theorem eigen_output_extent (n ld plo phi k rd s : Nat) (hn : 1 ≤ n) (hk : 1 ≤ k)
    (hrd : 1 ≤ rd) (hs : 1 ≤ s)
    (hfit : (k - 1) * rd + 1 ≤ (n - 1) * ld + 1 + plo + phi) :
    (ceilDiv (((n : Int) - 1) * ld + 1 + plo + phi
        - ((k : Int) + ((k : Int) - 1) * ((rd : Int) - 1)) + 1) s).toNat
      = ((n - 1) * ld + 1 + plo + phi - ((k - 1) * rd + 1)) / s + 1 := by
  obtain ⟨n', rfl⟩ : ∃ n', n = n' + 1 := ⟨n - 1, by omega⟩
  obtain ⟨k', rfl⟩ : ∃ k', k = k' + 1 := ⟨k - 1, by omega⟩
  obtain ⟨rd', rfl⟩ : ∃ rd', rd = rd' + 1 := ⟨rd - 1, by omega⟩
  simp only [Nat.add_sub_cancel] at hfit ⊢
  obtain ⟨x, hx⟩ : ∃ x, n' * ld + 1 + plo + phi = k' * (rd' + 1) + 1 + x := ⟨_, (Nat.add_sub_cancel' hfit).symm⟩
  have hx' : n' * ld + 1 + plo + phi - (k' * (rd' + 1) + 1) = x := by omega
  rw [hx']
  have hxi : ((n' : Int) * ld + 1 + plo + phi) = (k' : Int) * ((rd' : Int) + 1) + 1 + x := by
    exact_mod_cast hx
  have : ceilDiv ((((n' + 1 : Nat) : Int) - 1) * ld + 1 + plo + phi
        - (((k' + 1 : Nat) : Int) + (((k' + 1 : Nat) : Int) - 1) * (((rd' + 1 : Nat) : Int) - 1)) + 1) s
      = ((x + s : Nat) : Int) / ((s : Nat) : Int) := by
    unfold ceilDiv
    congr 1
    push_cast
    have e1 : ((n' : Int) + 1 - 1) * ld = (n' : Int) * ld := by ring
    rw [e1]
    have e2 : (n' : Int) * ld + 1 + plo + phi - ((k' : Int) + 1 + ((k' : Int) + 1 - 1) * ((rd' : Int) + 1 - 1)) + 1 + ((s : Int) - 1)
        = ((n' : Int) * ld + 1 + plo + phi) - (k' : Int) * ((rd' : Int) + 1) - 1 + s := by ring
    rw [e2, hxi]; ring
  rw [this, ← Int.natCast_div, Int.toNat_natCast, Nat.add_div_right _ (by omega)]

theorem convOutputSize_pos_fit (n ld plo phi k rd s : Nat)
    (h : 1 ≤ convOutputSize n ld plo phi k rd s) :
    (k - 1) * rd + 1 ≤ (n - 1) * ld + 1 + plo + phi
      ∧ convOutputSize n ld plo phi k rd s
          = ((n - 1) * ld + 1 + plo + phi - ((k - 1) * rd + 1)) / s + 1 := by
  unfold convOutputSize at h ⊢
  split_ifs at h ⊢ with hfit
  · exact ⟨hfit, rfl⟩
  · omega

theorem patchEvaluator_outputRows (p : ConvParams) (hv : p.Valid) :
    (patchEvaluator p).outputRows = p.output_cols := by
  obtain ⟨_, _, hC, _, _, hKC, _, _, _, hOC, _, hcs, _, _, _, hrdc, _, _, hoc⟩ := hv
  rw [hoc] at hOC
  obtain ⟨hfit, he⟩ := convOutputSize_pos_fit _ _ _ _ _ _ _ hOC
  rw [hoc, he]
  exact eigen_output_extent _ _ _ _ _ _ _ hC hKC hrdc hcs hfit

theorem patchEvaluator_outputCols (p : ConvParams) (hv : p.Valid) :
    (patchEvaluator p).outputCols = p.output_rows := by
  obtain ⟨_, hR, _, _, hKR, _, _, _, hOR, _, hrs, _, _, _, hrdr, _, _, hor, _⟩ := hv
  rw [hor] at hOR
  obtain ⟨hfit, he⟩ := convOutputSize_pos_fit _ _ _ _ _ _ _ hOR
  rw [hor, he]
  exact eigen_output_extent _ _ _ _ _ _ _ hR hKR hrdr hrs hfit

/-- The value the patch evaluator of `EigenConvImpl` yields for patch `(i, j)` of
batch `b`, tap `(kr, kc)` and channel `c` is the dilated, padded input at the
tap's position. -/
theorem patchValue_eq_paddedInput {α : Type} [CommRing α] (lhs : Nat → α) (p : ConvParams)
    (hldr : 1 ≤ p.lhs_row_dilation) (hldc : 1 ≤ p.lhs_col_dilation)
    (hrows : (patchEvaluator p).outputRows = p.output_cols)
    (b i j kr kc c : Nat) (hj : j < p.output_cols) (hkc : kc < p.kernel_cols) :
    (patchEvaluator p).patchValue lhs 0 b (i * p.output_cols + j) (kr * p.kernel_cols + kc) c
      = paddedInput lhs p b
          ((i : Int) * p.row_stride + (kr : Int) * p.rhs_row_dilation - p.padding_top)
          ((j : Int) * p.col_stride + (kc : Int) * p.rhs_col_dilation - p.padding_left) c := by
  unfold ImagePatchEvaluator.patchValue
  rw [hrows]
  have f1 : (patchEvaluator p).colStride = p.kernel_cols := rfl
  have f2 : (patchEvaluator p).col_strides = p.row_stride := rfl
  have f3 : (patchEvaluator p).in_col_strides = p.rhs_row_dilation := rfl
  have f4 : (patchEvaluator p).colPaddingLeft = p.padding_top := rfl
  have f5 : (patchEvaluator p).col_inflate_strides = p.lhs_row_dilation := rfl
  have f6 : (patchEvaluator p).input_cols_eff
      = ((p.input_rows : Int) - 1) * p.lhs_row_dilation + 1 := rfl
  have f7 : (patchEvaluator p).row_strides = p.col_stride := rfl
  have f8 : (patchEvaluator p).in_row_strides = p.rhs_col_dilation := rfl
  have f9 : (patchEvaluator p).rowPaddingTop = p.padding_left := rfl
  have f10 : (patchEvaluator p).row_inflate_strides = p.lhs_col_dilation := rfl
  have f11 : (patchEvaluator p).input_rows_eff
      = ((p.input_cols : Int) - 1) * p.lhs_col_dilation + 1 := rfl
  have f12 : (patchEvaluator p).rowInputStride = p.input_channels := rfl
  have f13 : (patchEvaluator p).colInputStride = p.input_channels * p.input_cols := rfl
  have f14 : (patchEvaluator p).patchInputStride
      = p.input_channels * p.input_cols * p.input_rows := rfl
  simp only [f1, f2, f3, f4, f5, f6, f7, f8, f9, f10, f11, f12, f13, f14]
  have d1 : (i * p.output_cols + j) / p.output_cols = i := split_div _ _ _ hj
  have d2 : (kr * p.kernel_cols + kc) / p.kernel_cols = kr := split_div _ _ _ hkc
  have d3 : i * p.output_cols + j - i * p.output_cols = j := Nat.add_sub_cancel_left _ _
  have d4 : kr * p.kernel_cols + kc - kr * p.kernel_cols = kc := Nat.add_sub_cancel_left _ _
  simp only [d1, d2, d3, d4]
  generalize (i : Int) * p.row_stride + (kr : Int) * p.rhs_row_dilation - p.padding_top = y
  generalize (j : Int) * p.col_stride + (kc : Int) * p.rhs_col_dilation - p.padding_left = x
  have hy := isPadding_eq_false_iff p.lhs_row_dilation p.input_rows hldr y
  have hx := isPadding_eq_false_iff p.lhs_col_dilation p.input_cols hldc x
  unfold paddedInput
  by_cases py : isPadding p.lhs_row_dilation (((p.input_rows : Int) - 1) * p.lhs_row_dilation + 1) y = true
  · rw [if_pos py]
    have : ¬ (0 ≤ y ∧ (p.lhs_row_dilation : Int) ∣ y ∧ y / (p.lhs_row_dilation : Int) < p.input_rows) := by
      intro h; rw [hy.mpr h] at py; exact Bool.false_ne_true py
    rw [if_neg (by tauto)]
  · rw [if_neg py]
    have py' := hy.mp (by simpa using py)
    by_cases px : isPadding p.lhs_col_dilation (((p.input_cols : Int) - 1) * p.lhs_col_dilation + 1) x = true
    · rw [if_pos px]
      have : ¬ (0 ≤ x ∧ (p.lhs_col_dilation : Int) ∣ x ∧ x / (p.lhs_col_dilation : Int) < p.input_cols) := by
        intro h; rw [hx.mpr h] at px; exact Bool.false_ne_true px
      rw [if_neg (by tauto)]
    · rw [if_neg px]
      have px' := hx.mp (by simpa using px)
      rw [if_pos ⟨py'.1, px'.1, py'.2.1, px'.2.1, py'.2.2, px'.2.2⟩]
      rw [origInput_eq_div _ _ py'.1, origInput_eq_div _ _ px'.1]
      congr 1
      have qy0 : 0 ≤ y / (p.lhs_row_dilation : Int) := Int.ediv_nonneg py'.1 (by omega)
      have qx0 : 0 ≤ x / (p.lhs_col_dilation : Int) := Int.ediv_nonneg px'.1 (by omega)
      obtain ⟨qy, hqy⟩ := Int.eq_ofNat_of_zero_le qy0
      obtain ⟨qx, hqx⟩ := Int.eq_ofNat_of_zero_le qx0
      rw [hqy, hqx, Int.toNat_natCast, Int.toNat_natCast]
      have : ((c : Int) + (qx : Int) * (p.input_channels : Int)
            + (qy : Int) * ((p.input_channels * p.input_cols : Nat) : Int)
            + (b : Int) * ((p.input_channels * p.input_cols * p.input_rows : Nat) : Int))
          = (((((b * p.input_rows + qy) * p.input_cols + qx) * p.input_channels + c) : Nat) : Int) := by
        push_cast; ring
      rw [this, Int.toNat_natCast]

theorem EigenConvExpr_coeff {α : Type} [CommRing α] (lhs rhs : Nat → α) (p : ConvParams)
    (index : Nat) :
    (EigenConvExpr lhs rhs p).coeff index
      = ∑ k in Finset.range (p.kernel_channels * p.kernel_cols * p.kernel_rows),
          (patchEvaluator p).coeff lhs 0
              (index / p.kernel_filters * (p.kernel_channels * p.kernel_cols * p.kernel_rows) + k)
            * rhs (k * p.kernel_filters + index % p.kernel_filters) := by
  simp [EigenConvExpr, patchMatrix, kernelMatrix, pre_contract_dims, kernel_dims, contract_dims,
    TensorExpr.contract, TensorExpr.reshape, TensorMap,
    TensorExpr.extract_image_patches, patchEvaluator]

theorem outputOffset_lt (p : ConvParams) (b i j f : Nat) (hb : b < p.input_batch)
    (hi : i < p.output_rows) (hj : j < p.output_cols) (hf : f < p.kernel_filters) :
    outputOffset p b i j f
      < p.input_batch * p.output_rows * p.output_cols * p.kernel_filters := by
  unfold outputOffset
  exact lt_mul_of_split _ _ _ _ (lt_mul_of_split _ _ _ _ (lt_mul_of_split _ _ _ _ hb hi) hj) hf

/-- Coefficient of the expression of `EigenConvImpl` at the offset of output
element `(b, i, j, f)`: the cross-correlation. -/
theorem EigenConvExpr_coeff_outputOffset {α : Type} [CommRing α] (lhs rhs : Nat → α)
    (p : ConvParams) (hv : p.Valid) (b i j f : Nat)
    (hi : i < p.output_rows) (hj : j < p.output_cols) (hf : f < p.kernel_filters) :
    (EigenConvExpr lhs rhs p).coeff (outputOffset p b i j f)
      = crossCorrelation lhs rhs p b i j f := by
  have hrows := patchEvaluator_outputRows p hv
  have hcols := patchEvaluator_outputCols p hv
  obtain ⟨_, _, _, hCH, _, _, _, _, _, _, _, _, hldr, hldc, _, _, hch, _, _⟩ := hv
  rw [EigenConvExpr_coeff]
  unfold outputOffset crossCorrelation
  rw [split_div _ _ _ hf, split_mod _ _ _ hf]
  rw [show p.kernel_channels * p.kernel_cols * p.kernel_rows
        = p.kernel_rows * p.kernel_cols * p.kernel_channels by ring]
  rw [sum_range_mul_split, sum_range_mul_split]
  refine Finset.sum_congr rfl (fun kr _ => Finset.sum_congr rfl (fun kc hkc =>
    Finset.sum_congr rfl (fun c hc => ?_)))
  have hkc' : kc < p.kernel_cols := Finset.mem_range.mp hkc
  have hc' : c < p.input_channels := by rw [← hch]; exact Finset.mem_range.mp hc
  congr 1
  have g1 : (patchEvaluator p).patchStride
      = p.kernel_cols * p.kernel_rows * p.input_channels := rfl
  have g2 : (patchEvaluator p).inputDepth = p.input_channels := rfl
  have g3 : (patchEvaluator p).otherStride
      = (patchEvaluator p).patchStride * (p.output_rows * p.output_cols) := by
    show (patchEvaluator p).patchStride
        * ((patchEvaluator p).outputRows * (patchEvaluator p).outputCols) = _
    rw [hrows, hcols, Nat.mul_comm p.output_cols]
  have hidx : ((b * p.output_rows + i) * p.output_cols + j)
        * (p.kernel_rows * p.kernel_cols * p.kernel_channels)
        + ((kr * p.kernel_cols + kc) * p.kernel_channels + c)
      = (b * (p.output_rows * p.output_cols) + (i * p.output_cols + j))
          * (patchEvaluator p).patchStride
        + ((kr * p.kernel_cols + kc) * (patchEvaluator p).inputDepth + c) := by
    rw [g1, g2, hch]; ring
  rw [hidx]
  have hkr' : kr < p.kernel_rows := Finset.mem_range.mp ‹_›
  rw [ImagePatchEvaluator.coeff_split (patchEvaluator p) lhs 0 b (i * p.output_cols + j)
    (kr * p.kernel_cols + kc) c (p.output_rows * p.output_cols) g3
    (lt_mul_of_split _ _ _ _ hi hj)
    (by
      rw [g1, g2, Nat.mul_comm p.kernel_cols p.kernel_rows]
      exact lt_mul_of_split _ _ _ _ (lt_mul_of_split _ _ _ _ hkr' hkc') hc')
    (by rw [g2]; exact hc')
    (by rw [g1, g2]; exact Dvd.intro_left _ rfl)]
  exact patchValue_eq_paddedInput lhs p hldr hldc hrows b i j kr kc c hj hkc'

/-- For valid parameters, `EigenConvImpl` leaves at the row-major offset of
every output element `(b, i, j, f)` the strided, dilated, zero-padded
cross-correlation: the sum over kernel rows, kernel columns and channels of the
dilated, zero-padded input at the tap position times the kernel element. -/
theorem EigenConvImpl_at_outputOffset {Device α : Type} [CommRing α] (device : Device)
    (out lhs rhs : Nat → α) (p : ConvParams) (hv : p.Valid) (b i j f : Nat)
    (hb : b < p.input_batch) (hi : i < p.output_rows) (hj : j < p.output_cols)
    (hf : f < p.kernel_filters) :
    EigenConvImpl device out lhs rhs p
        (((b * p.output_rows + i) * p.output_cols + j) * p.kernel_filters + f)
      = ∑ kr in Finset.range p.kernel_rows, ∑ kc in Finset.range p.kernel_cols,
          ∑ c in Finset.range p.kernel_channels,
            paddedInput lhs p b
                ((i : Int) * p.row_stride + (kr : Int) * p.rhs_row_dilation - p.padding_top)
                ((j : Int) * p.col_stride + (kc : Int) * p.rhs_col_dilation - p.padding_left) c
              * rhs (((kr * p.kernel_cols + kc) * p.kernel_channels + c) * p.kernel_filters + f) := by
  have h := outputOffset_lt p b i j f hb hi hj hf
  rw [EigenConvImpl_apply]
  unfold outputOffset at h
  rw [if_pos h]
  exact EigenConvExpr_coeff_outputOffset lhs rhs p hv b i j f hi hj hf

/-- Without input-side dilation, the padded input at an in-bounds position is
the input element itself. -/
theorem paddedInput_inbounds {α : Type} [CommRing α] (lhs : Nat → α) (p : ConvParams)
    (hldr : p.lhs_row_dilation = 1) (hldc : p.lhs_col_dilation = 1)
    (b y x c : Nat) (hy : y < p.input_rows) (hx : x < p.input_cols) :
    paddedInput lhs p b (y : Int) (x : Int) c
      = lhs (((b * p.input_rows + y) * p.input_cols + x) * p.input_channels + c) := by
  unfold paddedInput
  rw [hldr, hldc]
  simp only [Nat.cast_one, Int.ediv_one, one_dvd, true_and, Int.toNat_natCast]
  rw [if_pos ⟨by omega, by omega, by exact_mod_cast hy, by exact_mod_cast hx⟩]

/-- The last tap of the last output position stays inside the input when the
output extent is given by the size formula (no padding, no input dilation). -/
theorem tap_inbounds (n k rd s o i t : Nat) (hfit : (k - 1) * rd + 1 ≤ n)
    (ho : o = (n - ((k - 1) * rd + 1)) / s + 1) (hi : i < o) (ht : t < k) :
    i * s + t * rd < n := by
  have h1 : i ≤ (n - ((k - 1) * rd + 1)) / s := by omega
  have h2 : i * s ≤ (n - ((k - 1) * rd + 1)) / s * s := Nat.mul_le_mul_right s h1
  have h3 : (n - ((k - 1) * rd + 1)) / s * s ≤ n - ((k - 1) * rd + 1) := Nat.div_mul_le_self _ _
  have h4 : t * rd ≤ (k - 1) * rd := Nat.mul_le_mul_right rd (by omega)
  omega

/-- C3: with all dilation factors 1 and all paddings 0, `EigenConvImpl` is the
textbook "valid" convolution: output `(b, i, j, f)` is the sum over the kernel
window of input `(b, i*row_stride + kr, j*col_stride + kc, c)` times kernel
`(kr, kc, c, f)`, and every term reads inside the input. -/
theorem EigenConvImpl_valid_convolution {Device α : Type} [CommRing α] (device : Device)
    (out lhs rhs : Nat → α) (p : ConvParams)
    (hdil : p.lhs_row_dilation = 1 ∧ p.lhs_col_dilation = 1 ∧
      p.rhs_row_dilation = 1 ∧ p.rhs_col_dilation = 1)
    (hpad : p.padding_top = 0 ∧ p.padding_bottom = 0 ∧ p.padding_left = 0 ∧ p.padding_right = 0)
    (hch : p.kernel_channels = p.input_channels) (hCH : 1 ≤ p.input_channels)
    (hKR : 1 ≤ p.kernel_rows ∧ p.kernel_rows ≤ p.input_rows)
    (hKC : 1 ≤ p.kernel_cols ∧ p.kernel_cols ≤ p.input_cols)
    (hrs : 1 ≤ p.row_stride) (hcs : 1 ≤ p.col_stride)
    (hor : p.output_rows = (p.input_rows - p.kernel_rows) / p.row_stride + 1)
    (hoc : p.output_cols = (p.input_cols - p.kernel_cols) / p.col_stride + 1)
    (b i j f : Nat) (hb : b < p.input_batch) (hi : i < p.output_rows)
    (hj : j < p.output_cols) (hf : f < p.kernel_filters) :
    EigenConvImpl device out lhs rhs p
        (((b * p.output_rows + i) * p.output_cols + j) * p.kernel_filters + f)
      = ∑ kr in Finset.range p.kernel_rows, ∑ kc in Finset.range p.kernel_cols,
          ∑ c in Finset.range p.kernel_channels,
            lhs (((b * p.input_rows + (i * p.row_stride + kr)) * p.input_cols
                + (j * p.col_stride + kc)) * p.input_channels + c)
              * rhs (((kr * p.kernel_cols + kc) * p.kernel_channels + c) * p.kernel_filters + f)
    ∧ ∀ kr, kr < p.kernel_rows → ∀ kc, kc < p.kernel_cols →
        i * p.row_stride + kr < p.input_rows ∧ j * p.col_stride + kc < p.input_cols := by
  obtain ⟨hldr, hldc, hrdr, hrdc⟩ := hdil
  obtain ⟨hpt, hpb, hpl, hpr⟩ := hpad
  have hfr : (p.kernel_rows - 1) * 1 + 1 ≤ p.input_rows := by omega
  have hfc : (p.kernel_cols - 1) * 1 + 1 ≤ p.input_cols := by omega
  have hor' : p.output_rows = (p.input_rows - ((p.kernel_rows - 1) * 1 + 1)) / p.row_stride + 1 := by
    rw [hor]; congr 2; omega
  have hoc' : p.output_cols = (p.input_cols - ((p.kernel_cols - 1) * 1 + 1)) / p.col_stride + 1 := by
    rw [hoc]; congr 2; omega
  have hin : ∀ kr, kr < p.kernel_rows → ∀ kc, kc < p.kernel_cols →
      i * p.row_stride + kr < p.input_rows ∧ j * p.col_stride + kc < p.input_cols := by
    intro kr hkr kc hkc
    have h1 := tap_inbounds p.input_rows p.kernel_rows 1 p.row_stride p.output_rows i kr hfr hor' hi hkr
    have h2 := tap_inbounds p.input_cols p.kernel_cols 1 p.col_stride p.output_cols j kc hfc hoc' hj hkc
    omega
  have hv : p.Valid := by
    refine ⟨by omega, by omega, by omega, hCH, hKR.1, hKC.1, by omega, by omega, by omega,
      by omega, hrs, hcs, by omega, by omega, by omega, by omega, hch, ?_, ?_⟩
    · rw [hor']; unfold convOutputSize
      rw [hldr, hrdr, hpt, hpb, if_pos (by omega)]
      congr 2; omega
    · rw [hoc']; unfold convOutputSize
      rw [hldc, hrdc, hpl, hpr, if_pos (by omega)]
      congr 2; omega
  refine ⟨?_, hin⟩
  rw [EigenConvImpl_at_outputOffset device out lhs rhs p hv b i j f hb hi hj hf]
  refine Finset.sum_congr rfl (fun kr hkr => Finset.sum_congr rfl (fun kc hkc =>
    Finset.sum_congr rfl (fun c _ => ?_)))
  obtain ⟨h1, h2⟩ := hin kr (Finset.mem_range.mp hkr) kc (Finset.mem_range.mp hkc)
  congr 1
  rw [hrdr, hrdc, hpt, hpl]
  have e1 : (i : Int) * p.row_stride + (kr : Int) * ((1 : Nat) : Int) - ((0 : Nat) : Int)
      = ((i * p.row_stride + kr : Nat) : Int) := by push_cast; ring
  have e2 : (j : Int) * p.col_stride + (kc : Int) * ((1 : Nat) : Int) - ((0 : Nat) : Int)
      = ((j * p.col_stride + kc : Nat) : Int) := by push_cast; ring
  rw [e1, e2]
  exact paddedInput_inbounds lhs p hldr hldc b _ _ c h1 h2

/-- C5: kernel-side dilation skips input elements by the dilation factor. For a
kernel that is zero except for one tap `w` at `(kr0, kc0, c0, f0)`, with no
padding and no input-side dilation, output `(b, i, j, f0)` is `w` times input
`(b, i*row_stride + kr0*rhs_row_dilation, j*col_stride + kc0*rhs_col_dilation, c0)`
and output `(b, i, j, f)` is zero for every other filter `f`. -/
theorem EigenConvImpl_single_tap {Device α : Type} [CommRing α] (device : Device)
    (out lhs rhs : Nat → α) (p : ConvParams) (w : α) (kr0 kc0 c0 f0 : Nat)
    (hkr0 : kr0 < p.kernel_rows) (hkc0 : kc0 < p.kernel_cols)
    (hc0 : c0 < p.kernel_channels) (hf0 : f0 < p.kernel_filters)
    (htap : ∀ kr kc c f, kr < p.kernel_rows → kc < p.kernel_cols → c < p.kernel_channels →
      f < p.kernel_filters →
      rhs (((kr * p.kernel_cols + kc) * p.kernel_channels + c) * p.kernel_filters + f)
        = if kr = kr0 ∧ kc = kc0 ∧ c = c0 ∧ f = f0 then w else 0)
    (hld : p.lhs_row_dilation = 1 ∧ p.lhs_col_dilation = 1)
    (hrd : 1 ≤ p.rhs_row_dilation ∧ 1 ≤ p.rhs_col_dilation)
    (hpad : p.padding_top = 0 ∧ p.padding_bottom = 0 ∧ p.padding_left = 0 ∧ p.padding_right = 0)
    (hch : p.kernel_channels = p.input_channels)
    (hrs : 1 ≤ p.row_stride) (hcs : 1 ≤ p.col_stride)
    (hfr : (p.kernel_rows - 1) * p.rhs_row_dilation + 1 ≤ p.input_rows)
    (hfc : (p.kernel_cols - 1) * p.rhs_col_dilation + 1 ≤ p.input_cols)
    (hor : p.output_rows
      = (p.input_rows - ((p.kernel_rows - 1) * p.rhs_row_dilation + 1)) / p.row_stride + 1)
    (hoc : p.output_cols
      = (p.input_cols - ((p.kernel_cols - 1) * p.rhs_col_dilation + 1)) / p.col_stride + 1)
    (b i j : Nat) (hb : b < p.input_batch) (hi : i < p.output_rows) (hj : j < p.output_cols) :
    EigenConvImpl device out lhs rhs p
        (((b * p.output_rows + i) * p.output_cols + j) * p.kernel_filters + f0)
      = w * lhs (((b * p.input_rows + (i * p.row_stride + kr0 * p.rhs_row_dilation)) * p.input_cols
            + (j * p.col_stride + kc0 * p.rhs_col_dilation)) * p.input_channels + c0)
    ∧ ∀ f, f < p.kernel_filters → f ≠ f0 →
        EigenConvImpl device out lhs rhs p
          (((b * p.output_rows + i) * p.output_cols + j) * p.kernel_filters + f) = 0 := by
  obtain ⟨hldr, hldc⟩ := hld
  obtain ⟨hpt, hpb, hpl, hpr⟩ := hpad
  have hv : p.Valid := by
    refine ⟨by omega, by omega, by omega, by omega, by omega, by omega, by omega, by omega,
      by omega, by omega, hrs, hcs, by omega, by omega, hrd.1, hrd.2, hch, ?_, ?_⟩
    · rw [hor]; unfold convOutputSize
      rw [hldr, hpt, hpb, if_pos (by omega)]
      congr 2; omega
    · rw [hoc]; unfold convOutputSize
      rw [hldc, hpl, hpr, if_pos (by omega)]
      congr 2; omega
  have key : ∀ f, f < p.kernel_filters →
      EigenConvImpl device out lhs rhs p
          (((b * p.output_rows + i) * p.output_cols + j) * p.kernel_filters + f)
        = if f = f0 then
            w * lhs (((b * p.input_rows + (i * p.row_stride + kr0 * p.rhs_row_dilation))
              * p.input_cols + (j * p.col_stride + kc0 * p.rhs_col_dilation))
              * p.input_channels + c0)
          else 0 := by
    intro f hf
    rw [EigenConvImpl_at_outputOffset device out lhs rhs p hv b i j f hb hi hj hf]
    have step : ∀ kr ∈ Finset.range p.kernel_rows, ∀ kc ∈ Finset.range p.kernel_cols,
        ∀ c ∈ Finset.range p.kernel_channels,
        paddedInput lhs p b
            ((i : Int) * p.row_stride + (kr : Int) * p.rhs_row_dilation - p.padding_top)
            ((j : Int) * p.col_stride + (kc : Int) * p.rhs_col_dilation - p.padding_left) c
          * rhs (((kr * p.kernel_cols + kc) * p.kernel_channels + c) * p.kernel_filters + f)
        = if c = c0 then (if kc = kc0 then (if kr = kr0 then
            (if f = f0 then
              w * lhs (((b * p.input_rows + (i * p.row_stride + kr0 * p.rhs_row_dilation))
                * p.input_cols + (j * p.col_stride + kc0 * p.rhs_col_dilation))
                * p.input_channels + c0)
             else 0) else 0) else 0) else 0 := by
      intro kr hkr kc hkc c hc
      rw [htap kr kc c f (Finset.mem_range.mp hkr) (Finset.mem_range.mp hkc)
        (Finset.mem_range.mp hc) hf]
      by_cases h1 : kr = kr0
      · by_cases h2 : kc = kc0
        · by_cases h3 : c = c0
          · by_cases h4 : f = f0
            · subst h1 h2 h3 h4
              simp only [and_self, if_true]
              rw [hpt, hpl]
              have e1 : (i : Int) * p.row_stride + (kr : Int) * p.rhs_row_dilation - ((0 : Nat) : Int)
                  = ((i * p.row_stride + kr * p.rhs_row_dilation : Nat) : Int) := by
                push_cast; ring
              have e2 : (j : Int) * p.col_stride + (kc : Int) * p.rhs_col_dilation - ((0 : Nat) : Int)
                  = ((j * p.col_stride + kc * p.rhs_col_dilation : Nat) : Int) := by
                push_cast; ring
              rw [e1, e2, paddedInput_inbounds lhs p hldr hldc b _ _ c
                (tap_inbounds _ _ _ _ _ i kr hfr hor hi hkr0)
                (tap_inbounds _ _ _ _ _ j kc hfc hoc hj hkc0), mul_comm]
            · simp [h4]
          · simp [h3]
        · simp [h2]
      · simp [h1]
    rw [Finset.sum_congr rfl (fun kr hkr => Finset.sum_congr rfl (fun kc hkc =>
      Finset.sum_congr rfl (fun c hc => step kr hkr kc hkc c hc)))]
    simp only [Finset.sum_ite_eq', Finset.mem_range, hkr0, hkc0, hc0, if_true]
  refine ⟨?_, ?_⟩
  · rw [key f0 hf0, if_pos rfl]
  · intro f hf hne
    rw [key f hf, if_neg hne]

/-- Decoding a row-major offset of a rank-4 buffer with inner extents `B, C, D`. -/
theorem decode4 (a b c d B C D : Nat) (hb : b < B) (hc : c < C) (hd : d < D) :
    (((a * B + b) * C + c) * D + d) % D = d
    ∧ (((a * B + b) * C + c) * D + d) / D % C = c
    ∧ (((a * B + b) * C + c) * D + d) / (D * C) % B = b
    ∧ (((a * B + b) * C + c) * D + d) / (D * C * B) = a := by
  have h1 : (((a * B + b) * C + c) * D + d) / D = (a * B + b) * C + c := split_div _ _ _ hd
  have h2 : (((a * B + b) * C + c) * D + d) / (D * C) = a * B + b := by
    rw [← Nat.div_div_eq_div_mul, h1]; exact split_div _ _ _ hc
  have h3 : (((a * B + b) * C + c) * D + d) / (D * C * B) = a := by
    rw [← Nat.div_div_eq_div_mul, h2]; exact split_div _ _ _ hb
  refine ⟨split_mod _ _ _ hd, ?_, ?_, h3⟩
  · rw [h1]; exact split_mod _ _ _ hc
  · rw [h2]; exact split_mod _ _ _ hb

theorem transposeInput_apply {α : Type} (lhs : Nat → α) (p : ConvParams) (b x y c : Nat)
    (hx : x < p.input_cols) (hy : y < p.input_rows) (hc : c < p.input_channels) :
    transposeInput lhs p (((b * p.input_cols + x) * p.input_rows + y) * p.input_channels + c)
      = lhs (((b * p.input_rows + y) * p.input_cols + x) * p.input_channels + c) := by
  obtain ⟨h1, h2, h3, h4⟩ := decode4 b x y c p.input_cols p.input_rows p.input_channels hx hy hc
  unfold transposeInput
  simp only [h1, h2, h3, h4]

theorem transposeKernel_apply {α : Type} (rhs : Nat → α) (p : ConvParams) (kc kr c f : Nat)
    (hkr : kr < p.kernel_rows) (hc : c < p.kernel_channels) (hf : f < p.kernel_filters) :
    transposeKernel rhs p (((kc * p.kernel_rows + kr) * p.kernel_channels + c) * p.kernel_filters + f)
      = rhs (((kr * p.kernel_cols + kc) * p.kernel_channels + c) * p.kernel_filters + f) := by
  obtain ⟨h1, h2, h3, h4⟩ := decode4 kc kr c f p.kernel_rows p.kernel_channels p.kernel_filters hkr hc hf
  unfold transposeKernel
  simp only [h1, h2, h3, h4]

theorem ConvParams.Valid.transpose {p : ConvParams} (hv : p.Valid) : p.transpose.Valid := by
  obtain ⟨h1, h2, h3, h4, h5, h6, h7, h8, h9, h10, h11, h12, h13, h14, h15, h16, h17, h18, h19⟩ := hv
  exact ⟨h1, h3, h2, h4, h6, h5, h7, h8, h10, h9, h12, h11, h14, h13, h16, h15, h17, h19, h18⟩

theorem paddedInput_transpose {α : Type} [CommRing α] (lhs : Nat → α) (p : ConvParams)
    (b : Nat) (y x : Int) (c : Nat) (hc : c < p.input_channels) :
    paddedInput (transposeInput lhs p) p.transpose b x y c = paddedInput lhs p b y x c := by
  unfold paddedInput
  show (if 0 ≤ x ∧ 0 ≤ y ∧ (p.lhs_col_dilation : Int) ∣ x ∧ (p.lhs_row_dilation : Int) ∣ y ∧
      x / (p.lhs_col_dilation : Int) < p.input_cols ∧ y / (p.lhs_row_dilation : Int) < p.input_rows then
    transposeInput lhs p (((b * p.input_cols + (x / (p.lhs_col_dilation : Int)).toNat) * p.input_rows
      + (y / (p.lhs_row_dilation : Int)).toNat) * p.input_channels + c)
    else 0) = _
  by_cases h : 0 ≤ y ∧ 0 ≤ x ∧ (p.lhs_row_dilation : Int) ∣ y ∧ (p.lhs_col_dilation : Int) ∣ x ∧
      y / (p.lhs_row_dilation : Int) < p.input_rows ∧ x / (p.lhs_col_dilation : Int) < p.input_cols
  · rw [if_pos h, if_pos ⟨h.2.1, h.1, h.2.2.2.1, h.2.2.1, h.2.2.2.2.2, h.2.2.2.2.1⟩]
    apply transposeInput_apply
    · have h1 := h.2.2.2.2.2
      have h2 : 0 ≤ x / (p.lhs_col_dilation : Int) := Int.ediv_nonneg h.2.1 (Int.natCast_nonneg _)
      omega
    · have h1 := h.2.2.2.2.1
      have h2 : 0 ≤ y / (p.lhs_row_dilation : Int) := Int.ediv_nonneg h.1 (Int.natCast_nonneg _)
      omega
    · exact hc
  · rw [if_neg h, if_neg (by tauto)]

/-- C8 (amended): the row/column flip is applied consistently, so the result is
not transposed. For valid parameters (extents, strides and dilation factors at
least one, the kernel's channel count that of the input, output extents given by
the size formula), `EigenConvImpl` on the spatially transposed
input and kernel with every row/column parameter pair exchanged yields, at the
offset of element `(b, j, i, f)` of the transposed output, the value the
original call yields at element `(b, i, j, f)`. -/
theorem EigenConvImpl_transpose {Device α : Type} [CommRing α] (device : Device)
    (out outT lhs rhs : Nat → α) (p : ConvParams) (hv : p.Valid) (b i j f : Nat)
    (hb : b < p.input_batch) (hi : i < p.output_rows) (hj : j < p.output_cols)
    (hf : f < p.kernel_filters) :
    EigenConvImpl device outT (transposeInput lhs p) (transposeKernel rhs p) p.transpose
        (((b * p.output_cols + j) * p.output_rows + i) * p.kernel_filters + f)
      = EigenConvImpl device out lhs rhs p
        (((b * p.output_rows + i) * p.output_cols + j) * p.kernel_filters + f) := by
  have hch : p.kernel_channels = p.input_channels := hv.2.2.2.2.2.2.2.2.2.2.2.2.2.2.2.2.1
  rw [EigenConvImpl_at_outputOffset device out lhs rhs p hv b i j f hb hi hj hf]
  have hT := EigenConvImpl_at_outputOffset device outT (transposeInput lhs p)
    (transposeKernel rhs p) p.transpose hv.transpose b j i f hb hj hi hf
  have hT' : EigenConvImpl device outT (transposeInput lhs p) (transposeKernel rhs p) p.transpose
        (((b * p.output_cols + j) * p.output_rows + i) * p.kernel_filters + f)
      = ∑ kc in Finset.range p.kernel_cols, ∑ kr in Finset.range p.kernel_rows,
          ∑ c in Finset.range p.kernel_channels,
            paddedInput (transposeInput lhs p) p.transpose b
                ((j : Int) * p.col_stride + (kc : Int) * p.rhs_col_dilation - p.padding_left)
                ((i : Int) * p.row_stride + (kr : Int) * p.rhs_row_dilation - p.padding_top) c
              * transposeKernel rhs p
                  (((kc * p.kernel_rows + kr) * p.kernel_channels + c) * p.kernel_filters + f) := hT
  rw [hT', Finset.sum_comm]
  refine Finset.sum_congr rfl (fun kr hkr => Finset.sum_congr rfl (fun kc _ =>
    Finset.sum_congr rfl (fun c hc => ?_)))
  rw [paddedInput_transpose lhs p b _ _ c (by rw [← hch]; exact Finset.mem_range.mp hc),
    transposeKernel_apply rhs p kc kr c f (Finset.mem_range.mp hkr) (Finset.mem_range.mp hc) hf]

/-! ## Padding is zero-extension -/

theorem isPadding_one (eff pos : Int) :
    isPadding 1 eff pos = (decide (pos < 0) || decide (eff ≤ pos)) := by
  simp [isPadding]

theorem origInput_one (pos : Int) : origInput 1 pos = pos := by
  simp [origInput]

theorem patchEvaluator_explicitlyPadded_outputRows (p : ConvParams)
    (hldc : p.lhs_col_dilation = 1) :
    (patchEvaluator p.explicitlyPadded).outputRows = (patchEvaluator p).outputRows := by
  show (ceilDiv ((((p.input_cols + p.padding_left + p.padding_right : Nat) : Int) - 1)
        * (p.lhs_col_dilation : Int) + 1 + ((0 : Nat) : Int) + ((0 : Nat) : Int)
        - ((p.kernel_cols : Int) + ((p.kernel_cols : Int) - 1) * ((p.rhs_col_dilation : Int) - 1)) + 1)
        p.col_stride).toNat
    = (ceilDiv (((p.input_cols : Int) - 1) * (p.lhs_col_dilation : Int) + 1
        + (p.padding_left : Int) + (p.padding_right : Int)
        - ((p.kernel_cols : Int) + ((p.kernel_cols : Int) - 1) * ((p.rhs_col_dilation : Int) - 1)) + 1)
        p.col_stride).toNat
  rw [hldc]; congr 2; push_cast; ring

theorem patchEvaluator_explicitlyPadded_outputCols (p : ConvParams)
    (hldr : p.lhs_row_dilation = 1) :
    (patchEvaluator p.explicitlyPadded).outputCols = (patchEvaluator p).outputCols := by
  show (ceilDiv ((((p.input_rows + p.padding_top + p.padding_bottom : Nat) : Int) - 1)
        * (p.lhs_row_dilation : Int) + 1 + ((0 : Nat) : Int) + ((0 : Nat) : Int)
        - ((p.kernel_rows : Int) + ((p.kernel_rows : Int) - 1) * ((p.rhs_row_dilation : Int) - 1)) + 1)
        p.row_stride).toNat
    = (ceilDiv (((p.input_rows : Int) - 1) * (p.lhs_row_dilation : Int) + 1
        + (p.padding_top : Int) + (p.padding_bottom : Int)
        - ((p.kernel_rows : Int) + ((p.kernel_rows : Int) - 1) * ((p.rhs_row_dilation : Int) - 1)) + 1)
        p.row_stride).toNat
  rw [hldr]; congr 2; push_cast; ring

theorem zeroPadInput_apply {α : Type} [CommRing α] (lhs : Nat → α) (p : ConvParams)
    (b y x c : Nat) (hy : y < p.input_rows + p.padding_top + p.padding_bottom)
    (hx : x < p.input_cols + p.padding_left + p.padding_right) (hc : c < p.input_channels) :
    zeroPadInput lhs p
        (((b * (p.input_rows + p.padding_top + p.padding_bottom) + y)
          * (p.input_cols + p.padding_left + p.padding_right) + x) * p.input_channels + c)
      = if p.padding_top ≤ y ∧ y < p.padding_top + p.input_rows ∧
            p.padding_left ≤ x ∧ x < p.padding_left + p.input_cols then
          lhs (((b * p.input_rows + (y - p.padding_top)) * p.input_cols + (x - p.padding_left))
            * p.input_channels + c)
        else 0 := by
  obtain ⟨h1, h2, h3, h4⟩ := decode4 b y x c _ _ _ hy hx hc
  unfold zeroPadInput
  simp only [h1, h2, h3, h4]

/-- Without input-side dilation, the patch value on the explicitly padded input
with zero paddings is the patch value on the original input with paddings. -/
theorem patchValue_explicitlyPadded {α : Type} [CommRing α] (lhs : Nat → α) (p : ConvParams)
    (hldr : p.lhs_row_dilation = 1) (hldc : p.lhs_col_dilation = 1)
    (o p2 off d : Nat) (hd : d < p.input_channels) :
    (patchEvaluator p.explicitlyPadded).patchValue (zeroPadInput lhs p) 0 o p2 off d
      = (patchEvaluator p).patchValue lhs 0 o p2 off d := by
  unfold ImagePatchEvaluator.patchValue
  rw [patchEvaluator_explicitlyPadded_outputRows p hldc]
  have f1 : (patchEvaluator p.explicitlyPadded).colStride = (patchEvaluator p).colStride := rfl
  have f2 : (patchEvaluator p.explicitlyPadded).col_strides = (patchEvaluator p).col_strides := rfl
  have f3 : (patchEvaluator p.explicitlyPadded).in_col_strides
      = (patchEvaluator p).in_col_strides := rfl
  have f4 : (patchEvaluator p.explicitlyPadded).row_strides = (patchEvaluator p).row_strides := rfl
  have f5 : (patchEvaluator p.explicitlyPadded).in_row_strides
      = (patchEvaluator p).in_row_strides := rfl
  have f6 : (patchEvaluator p.explicitlyPadded).colPaddingLeft = 0 := rfl
  have f7 : (patchEvaluator p.explicitlyPadded).rowPaddingTop = 0 := rfl
  have f8 : (patchEvaluator p.explicitlyPadded).col_inflate_strides = 1 := hldr
  have f9 : (patchEvaluator p.explicitlyPadded).row_inflate_strides = 1 := hldc
  have f10 : (patchEvaluator p).col_inflate_strides = 1 := hldr
  have f11 : (patchEvaluator p).row_inflate_strides = 1 := hldc
  have f12 : (patchEvaluator p).colPaddingLeft = p.padding_top := rfl
  have f13 : (patchEvaluator p).rowPaddingTop = p.padding_left := rfl
  have f14 : (patchEvaluator p.explicitlyPadded).input_cols_eff
      = ((p.input_rows + p.padding_top + p.padding_bottom : Nat) : Int) := by
    show (((p.input_rows + p.padding_top + p.padding_bottom : Nat) : Int) - 1)
      * (p.lhs_row_dilation : Int) + 1 = _
    rw [hldr]; push_cast; ring
  have f15 : (patchEvaluator p.explicitlyPadded).input_rows_eff
      = ((p.input_cols + p.padding_left + p.padding_right : Nat) : Int) := by
    show (((p.input_cols + p.padding_left + p.padding_right : Nat) : Int) - 1)
      * (p.lhs_col_dilation : Int) + 1 = _
    rw [hldc]; push_cast; ring
  have f16 : (patchEvaluator p).input_cols_eff = (p.input_rows : Int) := by
    show ((p.input_rows : Int) - 1) * (p.lhs_row_dilation : Int) + 1 = _
    rw [hldr]; push_cast; ring
  have f17 : (patchEvaluator p).input_rows_eff = (p.input_cols : Int) := by
    show ((p.input_cols : Int) - 1) * (p.lhs_col_dilation : Int) + 1 = _
    rw [hldc]; push_cast; ring
  have f18 : (patchEvaluator p.explicitlyPadded).rowInputStride = p.input_channels := rfl
  have f19 : (patchEvaluator p.explicitlyPadded).colInputStride
      = p.input_channels * (p.input_cols + p.padding_left + p.padding_right) := rfl
  have f20 : (patchEvaluator p.explicitlyPadded).patchInputStride
      = p.input_channels * (p.input_cols + p.padding_left + p.padding_right)
        * (p.input_rows + p.padding_top + p.padding_bottom) := rfl
  have f21 : (patchEvaluator p).rowInputStride = p.input_channels := rfl
  have f22 : (patchEvaluator p).colInputStride = p.input_channels * p.input_cols := rfl
  have f23 : (patchEvaluator p).patchInputStride
      = p.input_channels * p.input_cols * p.input_rows := rfl
  rw [f1, f2, f3, f4, f5, f6, f7, f8, f9, f14, f15, f18, f19, f20]
  rw [f10, f11, f12, f13, f16, f17, f21, f22, f23]
  simp only [isPadding_one, origInput_one]
  have ha : ((p2 / (patchEvaluator p).outputRows : Nat) : Int) * ((patchEvaluator p).col_strides : Int)
        + ((off / (patchEvaluator p).colStride : Nat) : Int) * ((patchEvaluator p).in_col_strides : Int)
      = ((p2 / (patchEvaluator p).outputRows * (patchEvaluator p).col_strides
          + off / (patchEvaluator p).colStride * (patchEvaluator p).in_col_strides : Nat) : Int) := by
    push_cast; ring
  have he : ((p2 - p2 / (patchEvaluator p).outputRows * (patchEvaluator p).outputRows : Nat) : Int)
          * ((patchEvaluator p).row_strides : Int)
        + ((off - off / (patchEvaluator p).colStride * (patchEvaluator p).colStride : Nat) : Int)
          * ((patchEvaluator p).in_row_strides : Int)
      = (((p2 - p2 / (patchEvaluator p).outputRows * (patchEvaluator p).outputRows)
            * (patchEvaluator p).row_strides
          + (off - off / (patchEvaluator p).colStride * (patchEvaluator p).colStride)
            * (patchEvaluator p).in_row_strides : Nat) : Int) := by
    push_cast; ring
  rw [ha, he]
  generalize p2 / (patchEvaluator p).outputRows * (patchEvaluator p).col_strides
    + off / (patchEvaluator p).colStride * (patchEvaluator p).in_col_strides = a
  generalize (p2 - p2 / (patchEvaluator p).outputRows * (patchEvaluator p).outputRows)
      * (patchEvaluator p).row_strides
    + (off - off / (patchEvaluator p).colStride * (patchEvaluator p).colStride)
      * (patchEvaluator p).in_row_strides = e
  simp only [Nat.cast_zero, sub_zero, Bool.or_eq_true, decide_eq_true_eq]
  by_cases hA : a < p.input_rows + p.padding_top + p.padding_bottom
  · by_cases hE : e < p.input_cols + p.padding_left + p.padding_right
    · rw [if_neg (by omega), if_neg (by omega)]
      have hidx : ((d : Int) + (e : Int) * (p.input_channels : Int)
            + (a : Int) * ((p.input_channels * (p.input_cols + p.padding_left + p.padding_right) : Nat) : Int)
            + (o : Int) * ((p.input_channels * (p.input_cols + p.padding_left + p.padding_right)
                * (p.input_rows + p.padding_top + p.padding_bottom) : Nat) : Int)).toNat
          = ((o * (p.input_rows + p.padding_top + p.padding_bottom) + a)
              * (p.input_cols + p.padding_left + p.padding_right) + e) * p.input_channels + d := by
        rw [← Int.toNat_natCast (((o * (p.input_rows + p.padding_top + p.padding_bottom) + a)
              * (p.input_cols + p.padding_left + p.padding_right) + e) * p.input_channels + d)]
        congr 1; push_cast; ring
      rw [hidx, zeroPadInput_apply lhs p o a e d hA hE hd]
      by_cases hin : p.padding_top ≤ a ∧ a < p.padding_top + p.input_rows ∧
          p.padding_left ≤ e ∧ e < p.padding_left + p.input_cols
      · rw [if_pos hin, if_neg (by omega), if_neg (by omega)]
        congr 1
        rw [← Int.toNat_natCast (((o * p.input_rows + (a - p.padding_top)) * p.input_cols
          + (e - p.padding_left)) * p.input_channels + d)]
        congr 1
        have h1 : ((a - p.padding_top : Nat) : Int) = (a : Int) - p.padding_top := by omega
        have h2 : ((e - p.padding_left : Nat) : Int) = (e : Int) - p.padding_left := by omega
        push_cast
        rw [h1, h2]; ring
      · rw [if_neg hin]
        by_cases hA2 : (a : Int) - (p.padding_top : Int) < 0 ∨ (p.input_rows : Int) ≤ (a : Int) - (p.padding_top : Int)
        · rw [if_pos hA2]
        · rw [if_neg hA2, if_pos (by omega)]
    · rw [if_neg (by omega), if_pos (by omega)]
      by_cases hA2 : (a : Int) - (p.padding_top : Int) < 0 ∨ (p.input_rows : Int) ≤ (a : Int) - (p.padding_top : Int)
      · rw [if_pos hA2]
      · rw [if_neg hA2, if_pos (by omega)]
  · rw [if_pos (by omega), if_pos (by omega)]

theorem coeff_explicitlyPadded {α : Type} [CommRing α] (lhs : Nat → α) (p : ConvParams)
    (hldr : p.lhs_row_dilation = 1) (hldc : p.lhs_col_dilation = 1)
    (hCH : 1 ≤ p.input_channels) (index : Nat) :
    (patchEvaluator p.explicitlyPadded).coeff (zeroPadInput lhs p) 0 index
      = (patchEvaluator p).coeff lhs 0 index := by
  unfold ImagePatchEvaluator.coeff
  have g1 : (patchEvaluator p.explicitlyPadded).patchStride = (patchEvaluator p).patchStride := rfl
  have g2 : (patchEvaluator p.explicitlyPadded).inputDepth = p.input_channels := rfl
  have g2' : (patchEvaluator p).inputDepth = p.input_channels := rfl
  have g3 : (patchEvaluator p.explicitlyPadded).otherStride = (patchEvaluator p).otherStride := by
    show (patchEvaluator p.explicitlyPadded).patchStride
        * ((patchEvaluator p.explicitlyPadded).outputRows
          * (patchEvaluator p.explicitlyPadded).outputCols)
      = (patchEvaluator p).patchStride
        * ((patchEvaluator p).outputRows * (patchEvaluator p).outputCols)
    rw [g1, patchEvaluator_explicitlyPadded_outputRows p hldc,
      patchEvaluator_explicitlyPadded_outputCols p hldr]
  simp only [g1, g2, g2', g3]
  apply patchValue_explicitlyPadded lhs p hldr hldc
  rw [sub_div_mul]
  exact Nat.mod_lt _ (by omega)

/-- C4: padding is conceptual zero-extension. Without input-side dilation, the
standard output extents for the explicitly zero-surrounded input with paddings 0
are those for the original input with its paddings, and `EigenConvImpl` on the
explicitly padded input with all paddings 0 leaves the same value at every
element of the output memory as on the original input with the paddings. -/
theorem EigenConvImpl_padding_zero_extension {Device α : Type} [CommRing α] (device : Device)
    (out lhs rhs : Nat → α) (p : ConvParams)
    (hld : p.lhs_row_dilation = 1 ∧ p.lhs_col_dilation = 1)
    (hCH : 1 ≤ p.input_channels) (hR : 1 ≤ p.input_rows) (hC : 1 ≤ p.input_cols) :
    convOutputSize (p.input_rows + p.padding_top + p.padding_bottom) 1 0 0
        p.kernel_rows p.rhs_row_dilation p.row_stride
      = convOutputSize p.input_rows 1 p.padding_top p.padding_bottom
        p.kernel_rows p.rhs_row_dilation p.row_stride
    ∧ convOutputSize (p.input_cols + p.padding_left + p.padding_right) 1 0 0
        p.kernel_cols p.rhs_col_dilation p.col_stride
      = convOutputSize p.input_cols 1 p.padding_left p.padding_right
        p.kernel_cols p.rhs_col_dilation p.col_stride
    ∧ ∀ k, EigenConvImpl device out (zeroPadInput lhs p) rhs p.explicitlyPadded k
        = EigenConvImpl device out lhs rhs p k := by
  refine ⟨?_, ?_, ?_⟩
  · unfold convOutputSize
    have : (p.input_rows + p.padding_top + p.padding_bottom - 1) * 1 + 1 + 0 + 0
        = (p.input_rows - 1) * 1 + 1 + p.padding_top + p.padding_bottom := by omega
    rw [this]
  · unfold convOutputSize
    have : (p.input_cols + p.padding_left + p.padding_right - 1) * 1 + 1 + 0 + 0
        = (p.input_cols - 1) * 1 + 1 + p.padding_left + p.padding_right := by omega
    rw [this]
  · intro k
    rw [EigenConvImpl_apply, EigenConvImpl_apply, EigenConvExpr_coeff, EigenConvExpr_coeff]
    have e : ∀ index, (patchEvaluator p.explicitlyPadded).coeff (zeroPadInput lhs p) 0 index
        = (patchEvaluator p).coeff lhs 0 index :=
      coeff_explicitlyPadded lhs p hld.1 hld.2 hCH
    simp only [e]
    rfl

/-! ## The output extent written -/

theorem assignWrites_offsets {α : Type} (expr : TensorExpr α) :
    (assignWrites expr).map Prod.fst = List.range expr.size := by
  unfold assignWrites
  rw [List.map_map]
  exact List.map_id _

/-- C6: `EigenConvImpl` stores to exactly the offsets
`0 .. input_batch * output_rows * output_cols * kernel_filters - 1`, each once
and in this order, and leaves the output memory at and beyond that product
unchanged; the patch matrix and the kernel matrix share their contracted extent,
and the contraction has as many elements as `post_contract_dims` and the output
view. -/
theorem EigenConvImpl_writes_output_extent {Device α : Type} [CommRing α] (device : Device)
    (out lhs rhs : Nat → α) (p : ConvParams) :
    (EigenConvWrites lhs rhs p).map Prod.fst
        = List.range (p.input_batch * p.output_rows * p.output_cols * p.kernel_filters)
    ∧ (EigenConvWrites lhs rhs p).length
        = p.input_batch * p.output_rows * p.output_cols * p.kernel_filters
    ∧ ((EigenConvWrites lhs rhs p).map Prod.fst).Nodup
    ∧ (∀ k, p.input_batch * p.output_rows * p.output_cols * p.kernel_filters ≤ k →
        EigenConvImpl device out lhs rhs p k = out k)
    ∧ (patchMatrix lhs p).dimensions
        = [p.output_cols * p.output_rows * p.input_batch,
            p.kernel_channels * p.kernel_cols * p.kernel_rows]
    ∧ (kernelMatrix rhs p).dimensions
        = [p.kernel_channels * p.kernel_cols * p.kernel_rows, p.kernel_filters]
    ∧ ((patchMatrix lhs p).contract (kernelMatrix rhs p) contract_dims).dimensions
        = [p.output_cols * p.output_rows * p.input_batch, p.kernel_filters]
    ∧ ((patchMatrix lhs p).contract (kernelMatrix rhs p) contract_dims).size
        = (post_contract_dims p).prod
    ∧ (post_contract_dims p).prod = (outputView out p).size
    ∧ (outputView out p).size
        = p.input_batch * p.output_rows * p.output_cols * p.kernel_filters := by
  have hoff : (EigenConvWrites lhs rhs p).map Prod.fst
      = List.range (p.input_batch * p.output_rows * p.output_cols * p.kernel_filters) := by
    unfold EigenConvWrites
    rw [assignWrites_offsets, EigenConvExpr_size]
  refine ⟨hoff, ?_, ?_, ?_, rfl, rfl, ?_, ?_, ?_, ?_⟩
  · have := congrArg List.length hoff
    simpa using this
  · rw [hoff]; exact List.nodup_range _
  · intro k hk
    rw [EigenConvImpl_apply, if_neg (by omega)]
  · simp [TensorExpr.contract, contract_dims, patchMatrix, kernelMatrix, TensorExpr.reshape,
      pre_contract_dims, kernel_dims]
  · simp [TensorExpr.contract, contract_dims, patchMatrix, kernelMatrix, TensorExpr.reshape,
      pre_contract_dims, kernel_dims, post_contract_dims, TensorExpr.size]
    ring
  · simp [post_contract_dims, outputView, TensorMap, TensorExpr.size]
  · simp [outputView, TensorMap, TensorExpr.size, Nat.mul_assoc]

/-! ## `MKLConvImpl`: descriptors and queues -/

theorem MKLConvImpl_descriptor_translation_aux (p : ConvParams) (i j kr kc : Nat) :
    vendorTapPosition i ((conv1_desc p).strides.getD 0 0) kr ((conv1_desc p).dilates.getD 0 0)
          ((conv1_desc p).padding_l.getD 0 0)
        = (i : Int) * p.row_stride + (kr : Int) * p.rhs_row_dilation - p.padding_top
    ∧ vendorTapPosition j ((conv1_desc p).strides.getD 1 0) kc ((conv1_desc p).dilates.getD 1 0)
          ((conv1_desc p).padding_l.getD 1 0)
        = (j : Int) * p.col_stride + (kc : Int) * p.rhs_col_dilation - p.padding_left := by
  constructor <;>
  simp [conv1_desc, conv1_strides, conv1_dilates, conv1_padding_l, vendorTapPosition]

/-- C7: `MKLConvImpl` hands the vendor primitive the kernel dilation factors
minus one (factor 1 becomes 0), the top/left paddings as lower pad, the
bottom/right paddings as upper pad and the row/column strides; under the vendor's
tap rule, tap `(kr, kc)` of output `(i, j)` then reads input row
`i*row_stride + kr*rhs_row_dilation - padding_top` and column
`j*col_stride + kc*rhs_col_dilation - padding_left`. -/
theorem MKLConvImpl_descriptor_translation (p : ConvParams) (i j kr kc : Nat) :
    (conv1_desc p).dilates = [(p.rhs_row_dilation : Int) - 1, (p.rhs_col_dilation : Int) - 1]
    ∧ (conv1_desc { p with rhs_row_dilation := 1, rhs_col_dilation := 1 }).dilates = [0, 0]
    ∧ (conv1_desc p).padding_l = [(p.padding_top : Int), (p.padding_left : Int)]
    ∧ (conv1_desc p).padding_r = [(p.padding_bottom : Int), (p.padding_right : Int)]
    ∧ (conv1_desc p).strides = [(p.row_stride : Int), (p.col_stride : Int)]
    ∧ vendorTapPosition i ((conv1_desc p).strides.getD 0 0) kr ((conv1_desc p).dilates.getD 0 0)
          ((conv1_desc p).padding_l.getD 0 0)
        = (i : Int) * p.row_stride + (kr : Int) * p.rhs_row_dilation - p.padding_top
    ∧ vendorTapPosition j ((conv1_desc p).strides.getD 1 0) kc ((conv1_desc p).dilates.getD 1 0)
          ((conv1_desc p).padding_l.getD 1 0)
        = (j : Int) * p.col_stride + (kc : Int) * p.rhs_col_dilation - p.padding_left := by
  refine ⟨rfl, ?_, rfl, rfl, rfl, (MKLConvImpl_descriptor_translation_aux p i j kr kc).1,
    (MKLConvImpl_descriptor_translation_aux p i j kr kc).2⟩
  simp [conv1_desc, conv1_dilates]

/-- Closed form of the two queues built by `MKLConvBuild`. -/
theorem MKLConvBuild_queues (cpu_engine : Engine) (p : ConvParams) :
    (MKLConvBuild cpu_engine p).net_weights
      = (if (conv1_prim_desc cpu_engine p).weights_primitive_desc ≠ (user_weights_memory p).desc
          then [Primitive.reorder (user_weights_memory p)
            { desc := (conv1_prim_desc cpu_engine p).weights_primitive_desc,
              handle := DataHandle.conv1_weights }]
          else [])
    ∧ (MKLConvBuild cpu_engine p).net
      = (if (conv1_prim_desc cpu_engine p).src_primitive_desc ≠ (user_src_memory p).desc
          then [Primitive.reorder (user_src_memory p)
            { desc := (conv1_prim_desc cpu_engine p).src_primitive_desc,
              handle := DataHandle.conv1_src }]
          else [])
        ++ [Primitive.convolution_forward (conv1_prim_desc cpu_engine p)
            (if (conv1_prim_desc cpu_engine p).src_primitive_desc ≠ (user_src_memory p).desc
              then { desc := (conv1_prim_desc cpu_engine p).src_primitive_desc,
                     handle := DataHandle.conv1_src }
              else user_src_memory p)
            (if (conv1_prim_desc cpu_engine p).weights_primitive_desc
                ≠ (user_weights_memory p).desc
              then { desc := (conv1_prim_desc cpu_engine p).weights_primitive_desc,
                     handle := DataHandle.conv1_weights }
              else user_weights_memory p)
            (if (conv1_prim_desc cpu_engine p).dst_primitive_desc ≠ (user_dst_memory p).desc
              then { desc := (conv1_prim_desc cpu_engine p).dst_primitive_desc,
                     handle := DataHandle.conv1_dst }
              else user_dst_memory p)]
        ++ (if (conv1_prim_desc cpu_engine p).dst_primitive_desc ≠ (user_dst_memory p).desc
          then [Primitive.reorder
            { desc := (conv1_prim_desc cpu_engine p).dst_primitive_desc,
              handle := DataHandle.conv1_dst } (user_dst_memory p)]
          else [])
    ∧ (MKLConvBuild cpu_engine p).submitted
      = [(MKLConvBuild cpu_engine p).net_weights, (MKLConvBuild cpu_engine p).net]
    ∧ ∀ s w d : Bool, ∃ e : Engine,
        decide ((conv1_prim_desc e p).src_primitive_desc ≠ (user_src_memory p).desc) = s
        ∧ decide ((conv1_prim_desc e p).weights_primitive_desc ≠ (user_weights_memory p).desc) = w
        ∧ decide ((conv1_prim_desc e p).dst_primitive_desc ≠ (user_dst_memory p).desc) = d := by
  refine ⟨?_, ?_, rfl, ?_⟩
  · unfold MKLConvBuild
    by_cases hw : (conv1_prim_desc cpu_engine p).weights_primitive_desc
        = (user_weights_memory p).desc <;>
    simp [hw]
  · unfold MKLConvBuild
    by_cases hs : (conv1_prim_desc cpu_engine p).src_primitive_desc = (user_src_memory p).desc <;>
    by_cases hd : (conv1_prim_desc cpu_engine p).dst_primitive_desc = (user_dst_memory p).desc <;>
    by_cases hw : (conv1_prim_desc cpu_engine p).weights_primitive_desc
        = (user_weights_memory p).desc <;>
    simp [hs, hd, hw]
  · intro s w d
    refine ⟨{ src_format := fun _ => if s then Format.internal 0 else Format.nhwc,
              weights_format := fun _ => if w then Format.internal 0 else Format.hwio,
              dst_format := fun _ => if d then Format.internal 0 else Format.nhwc }, ?_, ?_, ?_⟩
    · cases s <;> simp [conv1_prim_desc, convolution_forward_primitive_desc, user_src_memory,
        conv1_desc, conv1_src_md]
    · cases w <;> simp [conv1_prim_desc, convolution_forward_primitive_desc, user_weights_memory,
        conv1_desc, conv1_weights_md]
    · cases d <;> simp [conv1_prim_desc, convolution_forward_primitive_desc, user_dst_memory,
        conv1_desc, conv1_dst_md]

/-- C10: the input-side dilation arguments (and the device argument) do not
reach the vendor primitive. Two calls that differ only in them build the same
descriptor, primitive descriptor and queues, and leave the same output memory. -/
theorem MKLConvImpl_ignores_lhs_dilation {Device Device2 α : Type} [CommRing α]
    (device : Device) (device2 : Device2) (cpu_engine : Engine) (out lhs rhs : Nat → α)
    (p : ConvParams) (lhs_row_dilation2 lhs_col_dilation2 : Nat) :
    conv1_desc { p with lhs_row_dilation := lhs_row_dilation2,
                        lhs_col_dilation := lhs_col_dilation2 } = conv1_desc p
    ∧ conv1_prim_desc cpu_engine { p with lhs_row_dilation := lhs_row_dilation2,
                                          lhs_col_dilation := lhs_col_dilation2 }
        = conv1_prim_desc cpu_engine p
    ∧ MKLConvBuild cpu_engine { p with lhs_row_dilation := lhs_row_dilation2,
                                       lhs_col_dilation := lhs_col_dilation2 }
        = MKLConvBuild cpu_engine p
    ∧ MKLConvImpl device2 cpu_engine out lhs rhs
          { p with lhs_row_dilation := lhs_row_dilation2, lhs_col_dilation := lhs_col_dilation2 }
        = MKLConvImpl device cpu_engine out lhs rhs p :=
  ⟨rfl, rfl, rfl, rfl⟩

/-! ## `MKLConvImpl` against `EigenConvImpl` -/

/-- The output memory after `MKLConvImpl`, whatever layouts the engine prefers:
every element of the destination extent holds the vendor convolution of the
user source and weights, the rest of the buffer is unchanged. -/
theorem MKLConvImpl_apply {Device α : Type} [CommRing α] (device : Device)
    (cpu_engine : Engine) (out lhs rhs : Nat → α) (p : ConvParams) (k : Nat) :
    MKLConvImpl device cpu_engine out lhs rhs p k
      = if k < (user_dst_memory p).desc.size then
          convolution_forward_compute (conv1_desc p)
            (fun n c h w => lhs ((user_src_memory p).desc.offset n c h w))
            (fun n c h w => rhs ((user_weights_memory p).desc.offset n c h w))
            ((user_dst_memory p).desc.decode k).1 ((user_dst_memory p).desc.decode k).2.1
            ((user_dst_memory p).desc.decode k).2.2.1 ((user_dst_memory p).desc.decode k).2.2.2
        else out k := by
  have hpd : (conv1_prim_desc cpu_engine p).desc = conv1_desc p := rfl
  unfold MKLConvImpl
  rw [(MKLConvBuild_queues cpu_engine p).2.2.1, (MKLConvBuild_queues cpu_engine p).1,
    (MKLConvBuild_queues cpu_engine p).2.1]
  by_cases hs : (conv1_prim_desc cpu_engine p).src_primitive_desc = (user_src_memory p).desc <;>
  by_cases hd : (conv1_prim_desc cpu_engine p).dst_primitive_desc = (user_dst_memory p).desc <;>
  by_cases hw : (conv1_prim_desc cpu_engine p).weights_primitive_desc
      = (user_weights_memory p).desc <;>
  simp only [ne_eq, hs, hd, hw, not_true_eq_false, not_false_eq_true, if_true, if_false,
    List.nil_append, List.append_nil, List.singleton_append, List.foldl_cons, List.foldl_nil,
    submit, Primitive.execute, hpd] <;>
  simp [Primitive.execute, hpd, Memory.read, Memory.write, user_src_memory, user_weights_memory,
    user_dst_memory]

theorem exists_outputOffset (p : ConvParams) (k : Nat)
    (hk : k < p.input_batch * p.output_rows * p.output_cols * p.kernel_filters) :
    ∃ b i j f, b < p.input_batch ∧ i < p.output_rows ∧ j < p.output_cols ∧ f < p.kernel_filters
      ∧ k = ((b * p.output_rows + i) * p.output_cols + j) * p.kernel_filters + f := by
  have hF : 0 < p.kernel_filters := by
    rcases Nat.eq_zero_or_pos p.kernel_filters with h | h
    · rw [h] at hk; simp at hk
    · exact h
  have hC : 0 < p.output_cols := by
    rcases Nat.eq_zero_or_pos p.output_cols with h | h
    · rw [h] at hk; simp at hk
    · exact h
  have hR : 0 < p.output_rows := by
    rcases Nat.eq_zero_or_pos p.output_rows with h | h
    · rw [h] at hk; simp at hk
    · exact h
  refine ⟨k / p.kernel_filters / p.output_cols / p.output_rows,
    k / p.kernel_filters / p.output_cols % p.output_rows,
    k / p.kernel_filters % p.output_cols, k % p.kernel_filters, ?_,
    Nat.mod_lt _ hR, Nat.mod_lt _ hC, Nat.mod_lt _ hF, ?_⟩
  · rw [Nat.div_lt_iff_lt_mul hR, Nat.div_lt_iff_lt_mul hC, Nat.div_lt_iff_lt_mul hF]
    exact hk
  · have e1 := Nat.div_add_mod k p.kernel_filters
    have e2 := Nat.div_add_mod (k / p.kernel_filters) p.output_cols
    have e3 := Nat.div_add_mod (k / p.kernel_filters / p.output_cols) p.output_rows
    rw [Nat.mul_comm] at e1 e2 e3
    rw [e3, e2, e1]

/-- Without input-side dilation the dilated, padded input of the specification
is the zero-extended source the vendor primitive reads through the `nhwc` tag. -/
theorem paddedInput_eq_zeroExtended {α : Type} [CommRing α] (lhs : Nat → α) (p : ConvParams)
    (hldr : p.lhs_row_dilation = 1) (hldc : p.lhs_col_dilation = 1)
    (b : Nat) (y x : Int) (c : Nat) :
    zeroExtended (fun n c h w => lhs ((user_src_memory p).desc.offset n c h w))
        p.input_rows p.input_cols b c y x
      = paddedInput lhs p b y x c := by
  unfold zeroExtended paddedInput
  rw [hldr, hldc]
  simp only [Nat.cast_one, Int.ediv_one, one_dvd, true_and]
  by_cases h : 0 ≤ y ∧ y < (p.input_rows : Int) ∧ 0 ≤ x ∧ x < (p.input_cols : Int)
  · rw [if_pos h, if_pos ⟨h.1, h.2.2.1, h.2.1, h.2.2.2⟩]
    simp [user_src_memory, MemoryDesc.offset, conv1_src_tz, dimAt]
  · rw [if_neg h, if_neg (by tauto)]

/-- The vendor convolution on the descriptor of `MKLConvImpl` is the
cross-correlation of the specification when there is no input-side dilation. -/
theorem convolution_forward_compute_eq_crossCorrelation {α : Type} [CommRing α]
    (lhs rhs : Nat → α) (p : ConvParams)
    (hldr : p.lhs_row_dilation = 1) (hldc : p.lhs_col_dilation = 1) (b i j f : Nat) :
    convolution_forward_compute (conv1_desc p)
        (fun n c h w => lhs ((user_src_memory p).desc.offset n c h w))
        (fun n c h w => rhs ((user_weights_memory p).desc.offset n c h w)) b f i j
      = crossCorrelation lhs rhs p b i j f := by
  unfold convolution_forward_compute crossCorrelation
  have d1 : dimAt (conv1_desc p).weights_desc.dims 1 = p.kernel_channels := by
    simp [conv1_desc, conv1_weights_md, conv1_weights_tz, dimAt]
  have d2 : dimAt (conv1_desc p).weights_desc.dims 2 = p.kernel_rows := by
    simp [conv1_desc, conv1_weights_md, conv1_weights_tz, dimAt]
  have d3 : dimAt (conv1_desc p).weights_desc.dims 3 = p.kernel_cols := by
    simp [conv1_desc, conv1_weights_md, conv1_weights_tz, dimAt]
  have d4 : dimAt (conv1_desc p).src_desc.dims 2 = p.input_rows := by
    simp [conv1_desc, conv1_src_md, conv1_src_tz, dimAt]
  have d5 : dimAt (conv1_desc p).src_desc.dims 3 = p.input_cols := by
    simp [conv1_desc, conv1_src_md, conv1_src_tz, dimAt]
  rw [d1, d2, d3, d4, d5, Finset.sum_comm]
  refine Finset.sum_congr rfl (fun kr _ => ?_)
  rw [Finset.sum_comm]
  refine Finset.sum_congr rfl (fun kc _ => Finset.sum_congr rfl (fun c _ => ?_))
  rw [(MKLConvImpl_descriptor_translation_aux p i j kr kc).1,
    (MKLConvImpl_descriptor_translation_aux p i j kr kc).2,
    paddedInput_eq_zeroExtended lhs p hldr hldc]
  congr 1

/-- C8 (as stated, refuted): the transposition property does not hold for every
parameter set. On `paramsInconsistent`, whose declared 2x2 output does not follow
the size formula (4x1) but has the same element count, so that the call stays
inside its buffers, element `(0, 1, 0, 0)` of the transposed call is 3 while
element `(0, 0, 1, 0)` of the original call is 2. -/
theorem EigenConvImpl_transpose_fails_on_inconsistent_extents :
    ¬ paramsInconsistent.Valid
    ∧ EigenConvImpl () sentinelOutput (transposeInput rampInput paramsInconsistent)
          (transposeKernel decimalKernel paramsInconsistent) paramsInconsistent.transpose
          (((0 * paramsInconsistent.output_cols + 1) * paramsInconsistent.output_rows + 0)
            * paramsInconsistent.kernel_filters + 0) = 3
    ∧ EigenConvImpl () sentinelOutput rampInput decimalKernel paramsInconsistent
          (((0 * paramsInconsistent.output_rows + 0) * paramsInconsistent.output_cols + 1)
            * paramsInconsistent.kernel_filters + 0) = 2
    ∧ ¬ (∀ (out outT lhs rhs : Nat → Int) (p : ConvParams) (b i j f : Nat),
        b < p.input_batch → i < p.output_rows → j < p.output_cols → f < p.kernel_filters →
        EigenConvImpl () outT (transposeInput lhs p) (transposeKernel rhs p) p.transpose
            (((b * p.output_cols + j) * p.output_rows + i) * p.kernel_filters + f)
          = EigenConvImpl () out lhs rhs p
            (((b * p.output_rows + i) * p.output_cols + j) * p.kernel_filters + f)) := by
  refine ⟨by decide, by decide, by decide, ?_⟩
  intro h
  have h0 := h sentinelOutput sentinelOutput rampInput decimalKernel paramsInconsistent 0 0 1 0
    (by decide) (by decide) (by decide) (by decide)
  revert h0
  decide

/-! ## The claims -/

/-- C1: for valid parameters, `EigenConvImpl` leaves at the row-major offset of
every output element `(b, i, j, f)` the strided, dilated, zero-padded
cross-correlation: the sum over kernel rows, kernel columns and channels of the
dilated, zero-padded input at the tap position times the kernel element. -/
theorem EigenConvImpl_cross_correlation {Device α : Type} [CommRing α] (device : Device)
    (out lhs rhs : Nat → α) (p : ConvParams) (hv : p.Valid) (b i j f : Nat)
    (hb : b < p.input_batch) (hi : i < p.output_rows) (hj : j < p.output_cols)
    (hf : f < p.kernel_filters) :
    EigenConvImpl device out lhs rhs p
        (((b * p.output_rows + i) * p.output_cols + j) * p.kernel_filters + f)
      = ∑ kr in Finset.range p.kernel_rows, ∑ kc in Finset.range p.kernel_cols,
          ∑ c in Finset.range p.kernel_channels,
            paddedInput lhs p b
                ((i : Int) * p.row_stride + (kr : Int) * p.rhs_row_dilation - p.padding_top)
                ((j : Int) * p.col_stride + (kc : Int) * p.rhs_col_dilation - p.padding_left) c
              * rhs (((kr * p.kernel_cols + kc) * p.kernel_channels + c) * p.kernel_filters + f) := by
  have hlt := outputOffset_lt p b i j f hb hi hj hf
  have hc := EigenConvExpr_coeff_outputOffset lhs rhs p hv b i j f hi hj hf
  unfold outputOffset at hlt hc
  unfold crossCorrelation at hc
  rw [EigenConvImpl_apply, if_pos hlt]
  exact hc

/-- Instance of C1's theorem: the strided, padded, doubly dilated instance, output
element `(0, 3, 1, 1)` at offset 15. -/
theorem EigenConvImpl_cross_correlation_witness :
    paramsGeneral.Valid
    ∧ EigenConvImpl () sentinelOutput rampInput decimalKernel paramsGeneral
          (((0 * paramsGeneral.output_rows + 3) * paramsGeneral.output_cols + 1)
            * paramsGeneral.kernel_filters + 1)
        = crossCorrelation rampInput decimalKernel paramsGeneral 0 3 1 1
    ∧ EigenConvImpl () sentinelOutput rampInput decimalKernel paramsGeneral 15
        = 18171615121110090 :=
  ⟨by decide,
    EigenConvImpl_cross_correlation () sentinelOutput rampInput decimalKernel paramsGeneral
      (by decide) 0 3 1 1 (by decide) (by decide) (by decide) (by decide),
    by decide⟩

/-- C2 (as stated, refuted): with input-side row dilation 2 the parameters are
valid, the vendor descriptor is consistent, and the two routines leave different
values at output offset 0: `EigenConvImpl` skips the hole the inflation leaves,
`MKLConvImpl` reads the un-inflated input. -/
theorem MKLConvImpl_ne_EigenConvImpl_lhs_dilation :
    paramsLhsDilated.Valid
    ∧ EigenConvImpl () sentinelOutput rampInput decimalKernel paramsLhsDilated 0 = 1
    ∧ MKLConvImpl () engineUserLayouts sentinelOutput rampInput decimalKernel paramsLhsDilated 0
        = 21
    ∧ ¬ (∀ (cpu_engine : Engine) (out lhs rhs : Nat → Int) (p : ConvParams), p.Valid → ∀ k,
        MKLConvImpl () cpu_engine out lhs rhs p k = EigenConvImpl () out lhs rhs p k) := by
  refine ⟨by decide, by decide, by decide, ?_⟩
  intro h
  have h0 := h engineUserLayouts sentinelOutput rampInput decimalKernel paramsLhsDilated
    (by decide) 0
  revert h0
  decide

/-- C2 (amended): for valid parameters without input-side dilation, and every
choice of layouts by the engine, `MKLConvImpl` and `EigenConvImpl` called with
the same arguments leave the same value at every offset `k` of the output
memory (exact arithmetic, vendor primitive as the direct forward convolution on
the descriptor it is given). -/
theorem MKLConvImpl_eq_EigenConvImpl {Device α : Type} [CommRing α] (device : Device)
    (cpu_engine : Engine) (out lhs rhs : Nat → α) (p : ConvParams) (hv : p.Valid)
    (hld : p.lhs_row_dilation = 1 ∧ p.lhs_col_dilation = 1) (k : Nat) :
    MKLConvImpl device cpu_engine out lhs rhs p k = EigenConvImpl device out lhs rhs p k := by
  rw [MKLConvImpl_apply, EigenConvImpl_apply]
  have hsize : (user_dst_memory p).desc.size
      = p.input_batch * p.output_rows * p.output_cols * p.kernel_filters := by
    simp [user_dst_memory, MemoryDesc.size, conv1_dst_tz, dimAt]; ring
  rw [hsize]
  by_cases hk : k < p.input_batch * p.output_rows * p.output_cols * p.kernel_filters
  · rw [if_pos hk, if_pos hk]
    obtain ⟨b, i, j, f, hb, hi, hj, hf, rfl⟩ := exists_outputOffset p k hk
    have hE := EigenConvExpr_coeff_outputOffset lhs rhs p hv b i j f hi hj hf
    unfold outputOffset at hE
    rw [hE]
    obtain ⟨h1, h2, h3, h4⟩ := decode4 b i j f p.output_rows p.output_cols p.kernel_filters hi hj hf
    have hdec : (user_dst_memory p).desc.decode
          (((b * p.output_rows + i) * p.output_cols + j) * p.kernel_filters + f)
        = (b, f, i, j) := by
      simp [user_dst_memory, MemoryDesc.decode, conv1_dst_tz, dimAt, h1, h2, h3, h4]
    rw [hdec]
    exact convolution_forward_compute_eq_crossCorrelation lhs rhs p hld.1 hld.2 b i j f
  · rw [if_neg hk, if_neg hk]

/-- Instance of the amended C2: the padded instance, an engine with layouts of
its own, output offset 9. -/
theorem MKLConvImpl_eq_EigenConvImpl_witness :
    paramsPadded.Valid
    ∧ (paramsPadded.lhs_row_dilation = 1 ∧ paramsPadded.lhs_col_dilation = 1)
    ∧ MKLConvImpl () engineOwnLayouts sentinelOutput rampInput decimalKernel paramsPadded 9
        = EigenConvImpl () sentinelOutput rampInput decimalKernel paramsPadded 9
    ∧ MKLConvImpl () engineOwnLayouts sentinelOutput rampInput decimalKernel paramsPadded 9
        = 10090000060500000 :=
  ⟨by decide, by decide,
    MKLConvImpl_eq_EigenConvImpl () engineOwnLayouts sentinelOutput rampInput decimalKernel
      paramsPadded (by decide) (by decide) 9,
    by decide⟩

/-- Instance of C3's theorem: batch 1, 4x4 input, 2x2 kernel, 1 channel, 1 filter,
stride 1; entry `(1, 2)` of the 3x3 output is
`in(1,2)*k(0,0) + in(1,3)*k(0,1) + in(2,2)*k(1,0) + in(2,3)*k(1,1)`. -/
theorem EigenConvImpl_valid_convolution_witness :
    EigenConvImpl () sentinelOutput rampInput decimalKernel params4x4
        (((0 * params4x4.output_rows + 1) * params4x4.output_cols + 2)
          * params4x4.kernel_filters + 0)
      = rampInput (1 * 4 + 2) * decimalKernel 0 + rampInput (1 * 4 + 3) * decimalKernel 1
        + rampInput (2 * 4 + 2) * decimalKernel 2 + rampInput (2 * 4 + 3) * decimalKernel 3
    ∧ ∀ kr, kr < params4x4.kernel_rows → ∀ kc, kc < params4x4.kernel_cols →
        1 * params4x4.row_stride + kr < params4x4.input_rows
        ∧ 2 * params4x4.col_stride + kc < params4x4.input_cols :=
  ⟨(EigenConvImpl_valid_convolution () sentinelOutput rampInput decimalKernel params4x4
      (by decide) (by decide) (by decide) (by decide) (by decide) (by decide) (by decide)
      (by decide) (by decide) (by decide) 0 1 2 0 (by decide) (by decide) (by decide)
      (by decide)).1.trans (by decide),
   (EigenConvImpl_valid_convolution () sentinelOutput rampInput decimalKernel params4x4
      (by decide) (by decide) (by decide) (by decide) (by decide) (by decide) (by decide)
      (by decide) (by decide) (by decide) 0 1 2 0 (by decide) (by decide) (by decide)
      (by decide)).2⟩

/-- Instance of C4's theorem: the padded instance; output extents agree and the
value at offset 9 is the same. -/
theorem EigenConvImpl_padding_zero_extension_witness :
    (paramsPadded.lhs_row_dilation = 1 ∧ paramsPadded.lhs_col_dilation = 1)
    ∧ paramsPadded.explicitlyPadded.Valid
    ∧ EigenConvImpl () sentinelOutput (zeroPadInput rampInput paramsPadded) decimalKernel
          paramsPadded.explicitlyPadded 9
        = EigenConvImpl () sentinelOutput rampInput decimalKernel paramsPadded 9
    ∧ EigenConvImpl () sentinelOutput rampInput decimalKernel paramsPadded 9
        = 10090000060500000 :=
  ⟨by decide, by decide,
    (EigenConvImpl_padding_zero_extension () sentinelOutput rampInput decimalKernel paramsPadded
      (by decide) (by decide) (by decide) (by decide)).2.2 9,
    by decide⟩

theorem singleTapKernel_tap (kr kc c f : Nat) (hkr : kr < paramsDilated.kernel_rows)
    (hkc : kc < paramsDilated.kernel_cols) (hc : c < paramsDilated.kernel_channels)
    (hf : f < paramsDilated.kernel_filters) :
    singleTapKernel (((kr * paramsDilated.kernel_cols + kc) * paramsDilated.kernel_channels + c)
        * paramsDilated.kernel_filters + f)
      = if kr = 1 ∧ kc = 1 ∧ c = 0 ∧ f = 1 then 5 else 0 := by
  have h1 : kr < 2 := hkr
  have h2 : kc < 2 := hkc
  have h3 : c < 1 := hc
  have h4 : f < 2 := hf
  interval_cases kr <;> interval_cases kc <;> interval_cases c <;> interval_cases f <;> decide

/-- Instance of C5's theorem: kernel-side dilation 2, the tap at kernel position
(1, 1) samples the input at `(i + 2, j + 2)`: output `(0, 0, 1, 1)` is 5 times
input `(0, 2, 3, 0)`, and filter 0 gives zero. -/
theorem EigenConvImpl_single_tap_witness :
    EigenConvImpl () sentinelOutput rampInput singleTapKernel paramsDilated
        (((0 * paramsDilated.output_rows + 0) * paramsDilated.output_cols + 1)
          * paramsDilated.kernel_filters + 1)
      = 5 * rampInput (((0 * 4 + (0 + 2)) * 4 + (1 + 2)) * 1 + 0)
    ∧ EigenConvImpl () sentinelOutput rampInput singleTapKernel paramsDilated
        (((0 * paramsDilated.output_rows + 0) * paramsDilated.output_cols + 1)
          * paramsDilated.kernel_filters + 0) = 0 :=
  ⟨(EigenConvImpl_single_tap () sentinelOutput rampInput singleTapKernel paramsDilated 5 1 1 0 1
      (by decide) (by decide) (by decide) (by decide) singleTapKernel_tap (by decide) (by decide)
      (by decide) (by decide) (by decide) (by decide) (by decide) (by decide) (by decide)
      (by decide) 0 0 1 (by decide) (by decide) (by decide)).1,
   (EigenConvImpl_single_tap () sentinelOutput rampInput singleTapKernel paramsDilated 5 1 1 0 1
      (by decide) (by decide) (by decide) (by decide) singleTapKernel_tap (by decide) (by decide)
      (by decide) (by decide) (by decide) (by decide) (by decide) (by decide) (by decide)
      (by decide) 0 0 1 (by decide) (by decide) (by decide)).2 0 (by decide) (by decide)⟩

/-- Instance of the amended C8: the strided, padded, doubly dilated instance; element
`(0, 1, 3, 0)` of the transposed call is element `(0, 3, 1, 0)` of the original. -/
theorem EigenConvImpl_transpose_witness :
    paramsGeneral.Valid
    ∧ EigenConvImpl () sentinelOutput (transposeInput rampInput paramsGeneral)
          (transposeKernel decimalKernel paramsGeneral) paramsGeneral.transpose
          (((0 * paramsGeneral.output_cols + 1) * paramsGeneral.output_rows + 3)
            * paramsGeneral.kernel_filters + 0)
        = EigenConvImpl () sentinelOutput rampInput decimalKernel paramsGeneral
          (((0 * paramsGeneral.output_rows + 3) * paramsGeneral.output_cols + 1)
            * paramsGeneral.kernel_filters + 0)
    ∧ EigenConvImpl () sentinelOutput rampInput decimalKernel paramsGeneral 14
        = 1817161512111009 :=
  ⟨by decide,
    EigenConvImpl_transpose () sentinelOutput sentinelOutput rampInput decimalKernel paramsGeneral
      (by decide) 0 3 1 0 (by decide) (by decide) (by decide) (by decide),
    by decide⟩

/-- C9: the two queues of `MKLConvImpl`, for every engine and so for every
combination of the three layout comparisons. The weights queue is the weights
reorder if the weights layout differs, else empty. The main queue is the source
reorder if the source layout differs, then one convolution, then the
destination reorder if the destination layout differs. The convolution reads
the reordered memories exactly when their reorder was queued and writes to the
scratch memory exactly when the destination layout differs. The weights queue
is submitted first. Every combination of comparisons occurs for some engine. -/
theorem MKLConvImpl_queues (cpu_engine : Engine) (p : ConvParams) :
    (MKLConvBuild cpu_engine p).net_weights
      = (if (conv1_prim_desc cpu_engine p).weights_primitive_desc ≠ (user_weights_memory p).desc
          then [Primitive.reorder (user_weights_memory p)
            { desc := (conv1_prim_desc cpu_engine p).weights_primitive_desc,
              handle := DataHandle.conv1_weights }]
          else [])
    ∧ (MKLConvBuild cpu_engine p).net
      = (if (conv1_prim_desc cpu_engine p).src_primitive_desc ≠ (user_src_memory p).desc
          then [Primitive.reorder (user_src_memory p)
            { desc := (conv1_prim_desc cpu_engine p).src_primitive_desc,
              handle := DataHandle.conv1_src }]
          else [])
        ++ [Primitive.convolution_forward (conv1_prim_desc cpu_engine p)
            (if (conv1_prim_desc cpu_engine p).src_primitive_desc ≠ (user_src_memory p).desc
              then { desc := (conv1_prim_desc cpu_engine p).src_primitive_desc,
                     handle := DataHandle.conv1_src }
              else user_src_memory p)
            (if (conv1_prim_desc cpu_engine p).weights_primitive_desc
                ≠ (user_weights_memory p).desc
              then { desc := (conv1_prim_desc cpu_engine p).weights_primitive_desc,
                     handle := DataHandle.conv1_weights }
              else user_weights_memory p)
            (if (conv1_prim_desc cpu_engine p).dst_primitive_desc ≠ (user_dst_memory p).desc
              then { desc := (conv1_prim_desc cpu_engine p).dst_primitive_desc,
                     handle := DataHandle.conv1_dst }
              else user_dst_memory p)]
        ++ (if (conv1_prim_desc cpu_engine p).dst_primitive_desc ≠ (user_dst_memory p).desc
          then [Primitive.reorder
            { desc := (conv1_prim_desc cpu_engine p).dst_primitive_desc,
              handle := DataHandle.conv1_dst } (user_dst_memory p)]
          else [])
    ∧ (MKLConvBuild cpu_engine p).submitted
      = [(MKLConvBuild cpu_engine p).net_weights, (MKLConvBuild cpu_engine p).net]
    ∧ ∀ s w d : Bool, ∃ e : Engine,
        decide ((conv1_prim_desc e p).src_primitive_desc ≠ (user_src_memory p).desc) = s
        ∧ decide ((conv1_prim_desc e p).weights_primitive_desc ≠ (user_weights_memory p).desc) = w
        ∧ decide ((conv1_prim_desc e p).dst_primitive_desc ≠ (user_dst_memory p).desc) = d :=
  MKLConvBuild_queues cpu_engine p

end Conv2d
